import Mathlib

/-! golGL: Conway's Game of Life on a toroidal board (`glGOL1.c`).

A shallow embedding of the simulation core of `glGOL1.c` (`seed`, `toroidTick`,
`determineState`, `update`, and the simulation part of `gameMain`), followed by
theorems about it.

Modelling conventions.

* The global variables of the C file are the fields of `State`.  The two
  `_Bool [boardSize][boardSize]` arrays are functions from a row index and a
  column index to `Bool` (`cellBoard[y][x]` is `s.cellBoard y x`); only the
  entries with both indices below the dimension are cells of the board.
* `boardSize` is a macro (400 in the source).  The functions take the dimension
  as a parameter `N`, so that the source is the instance `N = boardSize`.
* `uint64_t` counters are natural numbers reduced modulo `2 ^ 64` at every
  increment; the `int` local `neighbors` is an `Int` (it never leaves `0..8`).
* `for (i = 0; i < n; i++) body` is `forLoop body n`; the loop-carried local
  `neighbors` of `toroidTick` is the second component of the loop state.
* The rendering calls of `gameMain` (OpenGL/GLUT) do not touch the simulation
  state and are left out.
* The C library calls of `seed` are parameters: the value of `time(NULL)` and
  the stream of values of `rand()` that follows `srand(v)`.
* A second embedding (`toroidTickChecked`, `updateChecked`, ...) uses `int`
  indices and array accesses that fail outside `0..N-1`.
-/

namespace GolGL

/-! ## Data model -/

/-- The value of the macro `boardSize` in the source. -/
def boardSize : Nat := 400

/-- Arithmetic on `uint64_t` wraps modulo this number. -/
def UINT64_MOD : Nat := 2 ^ 64

/-- The global variables of `glGOL1.c` that the simulation reads or writes. -/
structure State where
  Paused : Bool
  cellBoard : Nat → Nat → Bool
  cellBuffer : Nat → Nat → Bool
  nLiving : Nat
  generation : Nat

/-- The globals as the C initialisers leave them: zero-initialised arrays,
`Paused = 0`, `nLiving = 0`, `generation = 0`. -/
def initState : State :=
  { Paused := false
    cellBoard := fun _ _ => false
    cellBuffer := fun _ _ => false
    nLiving := 0
    generation := 0 }

/-- The assignment `a[i][j] = v`. -/
def store (a : Nat → Nat → Bool) (i j : Nat) (v : Bool) : Nat → Nat → Bool :=
  fun i' j' => if i' = i ∧ j' = j then v else a i' j'

/-- The loop `for (i = 0; i < n; i++) body(i)` acting on a loop state:
iterations `0, 1, ..., n - 1` in this order. -/
def forLoop {σ : Type} (body : Nat → σ → σ) : Nat → σ → σ
  | 0, s => s
  | n + 1, s => body n (forLoop body n s)

/-! ## `determineState` -/

/-- The function `determineState(neighbors, x, y)`; it reads the global `cellBoard`. -/
def determineState (cellBoard : Nat → Nat → Bool) (neighbors : Int) (x y : Nat) : Bool :=
  if neighbors == 2 && cellBoard y x == true then true
  else if neighbors == 3 then true
  else false

/-! ## `toroidTick` -/

/-- The index `tmp[0]` of `toroidTick`: `if (i-1 < 0) tmp[0] = boardSize-1; else tmp[0] = i-1;`. -/
def wrapLow (N i : Nat) : Nat :=
  if (i : Int) - 1 < 0 then N - 1 else i - 1

/-- The index `tmp[1]` of `toroidTick`: `if (i+1 == boardSize) tmp[1] = 0; else tmp[1] = i+1;`. -/
def wrapHigh (N i : Nat) : Nat :=
  if i + 1 = N then 0 else i + 1

/-- One `if (cellBoard[r][c] != 0) neighbors++;` of `toroidTick`. -/
def bump (cellBoard : Nat → Nat → Bool) (r c : Nat) (neighbors : Int) : Int :=
  if cellBoard r c != false then neighbors + 1 else neighbors

/-- The eight conditional increments of `neighbors` in the body of the inner
loop of `toroidTick`, in the order of the source, starting from the value of
`neighbors` that the loop carries in. -/
def countNeighbors (cellBoard : Nat → Nat → Bool) (neighbors : Int)
    (x y tmpx0 tmpx1 tmpy0 tmpy1 : Nat) : Int :=
  let neighbors := bump cellBoard tmpy1 tmpx0 neighbors
  let neighbors := bump cellBoard tmpy1 x neighbors
  let neighbors := bump cellBoard tmpy1 tmpx1 neighbors
  let neighbors := bump cellBoard y tmpx0 neighbors
  let neighbors := bump cellBoard y tmpx1 neighbors
  let neighbors := bump cellBoard tmpy0 tmpx0 neighbors
  let neighbors := bump cellBoard tmpy0 x neighbors
  let neighbors := bump cellBoard tmpy0 tmpx1 neighbors
  neighbors

/-- The value of `neighbors` that the body of the inner loop of `toroidTick`
passes to `determineState` for the cell `(x, y)`, given the loop state `st`
(globals and the carried `neighbors`) at the entry of the body. -/
def cellNeighbors (N y tmpy0 tmpy1 x : Nat) : State × Int → Int
  | (s, neighbors) =>
    countNeighbors s.cellBoard neighbors x y (wrapLow N x) (wrapHigh N x) tmpy0 tmpy1

/-- The body of the inner loop (`for x`) of `toroidTick`: compute `tmpx`, count
the neighbours, write `cellBuffer[y][x]`, count the cell in `nLiving` if it
lives, and reset `neighbors` to `0`. -/
def tickCell (N y tmpy0 tmpy1 x : Nat) : State × Int → State × Int
  | (s, neighbors) =>
    let neighbors := cellNeighbors N y tmpy0 tmpy1 x (s, neighbors)
    let s : State :=
      { s with cellBuffer := store s.cellBuffer y x (determineState s.cellBoard neighbors x y) }
    let s : State :=
      if s.cellBuffer y x != false then { s with nLiving := (s.nLiving + 1) % UINT64_MOD } else s
    (s, 0)

/-- The body of the outer loop (`for y`) of `toroidTick`: compute `tmpy`, then
run the inner loop over `x`. -/
def tickRow (N y : Nat) (st : State × Int) : State × Int :=
  forLoop (tickCell N y (wrapLow N y) (wrapHigh N y)) N st

/-- The function `toroidTick`: `neighbors = 0; nLiving = 0;`, the two nested
loops, then `generation++`. -/
def toroidTick (N : Nat) (s : State) : State :=
  let st := forLoop (tickRow N) N ({ s with nLiving := 0 }, 0)
  { st.1 with generation := (st.1.generation + 1) % UINT64_MOD }

/-- The loop state of `toroidTick` (globals and `neighbors`) at the entry of
the inner-loop body for the cell `(x, y)`: rows `0..y-1` are done, and so are
the columns `0..x-1` of row `y`. -/
def tickEntry (N : Nat) (s : State) (y x : Nat) : State × Int :=
  forLoop (tickCell N y (wrapLow N y) (wrapHigh N y)) x
    (forLoop (tickRow N) y ({ s with nLiving := 0 }, 0))

/-! ## `update`, `Step`, `gameMain` -/

/-- The function `update`: `for x, for y: cellBoard[y][x] = cellBuffer[y][x]`. -/
def update (N : Nat) (s : State) : State :=
  forLoop (fun x s =>
    forLoop (fun y s => { s with cellBoard := store s.cellBoard y x (s.cellBuffer y x) }) N s) N s

/-- One step of the simulation: `toroidTick(); update();`. -/
def Step (N : Nat) (s : State) : State :=
  update N (toroidTick N s)

/-- The simulation part of `gameMain`: the step runs unless `Paused`. -/
def gameMain (N : Nat) (s : State) : State :=
  if s.Paused == false then update N (toroidTick N s) else s

/-- The state after `k` calls of `Step`. -/
def steps (N : Nat) : Nat → State → State
  | 0, s => s
  | k + 1, s => Step N (steps N k s)

/-! ## Reference notions used to state the properties -/

/-- The rule B3/S23 as the specification words it: alive iff
(`a` and `c = 2`) or `c = 3`. -/
def rule (a : Bool) (c : Nat) : Prop :=
  (a = true ∧ c = 2) ∨ c = 3

instance (a : Bool) (c : Nat) : Decidable (rule a c) := by
  unfold rule; infer_instance

/-- The eight offsets `(dx, dy)` of `{-1,0,1}^2` other than `(0,0)`. -/
def offsets : List (Int × Int) :=
  [(-1, -1), (0, -1), (1, -1), (-1, 0), (1, 0), (-1, 1), (0, 1), (1, 1)]

/-- The coordinate `(i + d) mod N`. -/
def torus (N i : Nat) (d : Int) : Nat :=
  (((i : Int) + d) % (N : Int)).toNat

/-- The reference neighbour count of the cell `(x, y)`: the number of offsets
`(dx, dy)` for which `b[(y+dy) mod N][(x+dx) mod N]` is alive. -/
def refCount (N : Nat) (b : Nat → Nat → Bool) (x y : Nat) : Nat :=
  offsets.countP (fun d => b (torus N y d.2) (torus N x d.1))

/-- The number of live cells among the first `x` cells of row `y`. -/
def rowLive (b : Nat → Nat → Bool) (y x : Nat) : Nat :=
  (List.range x).countP (fun c => b y c)

/-- The number of live cells of an `N x N` board, by a full scan of it. -/
def liveCount (N : Nat) (b : Nat → Nat → Bool) : Nat :=
  ((List.range N).map (fun y => rowLive b y N)).sum

/-! ## Auxiliary notions used in the proofs -/

/-- The next state of the cell in row `r`, column `c`, as `toroidTick` computes
it from the board `b` when `neighbors` enters the cell body as `0`. -/
def nextCell (N : Nat) (b : Nat → Nat → Bool) (r c : Nat) : Bool :=
  determineState b
    (countNeighbors b 0 c r (wrapLow N c) (wrapHigh N c) (wrapLow N r) (wrapHigh N r)) c r

/-- The number of live cells in the rows `0..y-1` of an `N`-column board. -/
def liveRows (N : Nat) (b : Nat → Nat → Bool) (y : Nat) : Nat :=
  ((List.range y).map (fun r => rowLive b r N)).sum

/-- The number of live cells among the eight positions that `toroidTick` reads. -/
def liveAround (b : Nat → Nat → Bool) (x y tmpx0 tmpx1 tmpy0 tmpy1 : Nat) : Nat :=
  (b tmpy1 tmpx0).toNat + (b tmpy1 x).toNat + (b tmpy1 tmpx1).toNat +
  (b y tmpx0).toNat + (b y tmpx1).toNat +
  (b tmpy0 tmpx0).toNat + (b tmpy0 x).toNat + (b tmpy0 tmpx1).toNat

/-! ## `seed` -/

/-- The body of the inner loop of `seed`: `r = rand() % 3;` then
`cellBoard[n][m] = 1` if `r == 0` and `cellBoard[n][m] = 0` otherwise.  The
loop state carries the number of calls of `rand()` made so far; `rnd k` is the
(non-negative) value that the call number `k` returns. -/
def seedCell (rnd : Nat → Nat) (n m : Nat) : State × Nat → State × Nat
  | (s, calls) =>
    let r := rnd calls % 3
    let s : State :=
      if r == 0 then { s with cellBoard := store s.cellBoard n m true }
      else { s with cellBoard := store s.cellBoard n m false }
    (s, calls + 1)

/-- The two nested loops of `seed`, drawing from the stream `rnd` of values
that the successive calls of `rand()` return. -/
def seedFrom (N : Nat) (rnd : Nat → Nat) (s : State) : State :=
  (forLoop (fun n st => forLoop (seedCell rnd n) N st) N (s, 0)).1

/-- The function `seed`: `srand(time(NULL));` followed by the two loops.  The C
library is a parameter: `randStream v` is the stream of values that `rand()`
returns after `srand(v)`, and `now` is the value that `time(NULL)` returns.
The function has no argument in the source: the generator is seeded from the
clock. -/
def seed (N : Nat) (randStream : Nat → Nat → Nat) (now : Nat) (s : State) : State :=
  seedFrom N (randStream now) s

/-! ## A bounds-checked embedding

The same functions once more, with `int` indices and arrays of dimension `N`
whose accesses fail (`none`) when an index is outside `0..N-1`. -/

/-- The read `a[i][j]` of an `N x N` array, `none` when an index is out of bounds. -/
def loadChecked (N : Nat) (a : Nat → Nat → Bool) (i j : Int) : Option Bool :=
  if 0 ≤ i ∧ i < (N : Int) ∧ 0 ≤ j ∧ j < (N : Int) then some (a i.toNat j.toNat) else none

/-- The write `a[i][j] = v` to an `N x N` array, `none` when an index is out of bounds. -/
def storeChecked (N : Nat) (a : Nat → Nat → Bool) (i j : Int) (v : Bool) :
    Option (Nat → Nat → Bool) :=
  if 0 ≤ i ∧ i < (N : Int) ∧ 0 ≤ j ∧ j < (N : Int) then some (store a i.toNat j.toNat v)
  else none

/-- The loop `for (i = 0; i < n; i++) body(i)` with a body that may fail. -/
def forLoopChecked {σ : Type} (body : Nat → σ → Option σ) : Nat → σ → Option σ
  | 0, s => some s
  | n + 1, s => (forLoopChecked body n s).bind (body n)

/-- The `int` index `tmp[0]`: `if (i-1 < 0) tmp[0] = boardSize-1; else tmp[0] = i-1;`. -/
def tmpLow (N : Nat) (i : Int) : Int :=
  if i - 1 < 0 then (N : Int) - 1 else i - 1

/-- The `int` index `tmp[1]`: `if (i+1 == boardSize) tmp[1] = 0; else tmp[1] = i+1;`. -/
def tmpHigh (N : Nat) (i : Int) : Int :=
  if i + 1 = (N : Int) then 0 else i + 1

/-- The function `determineState` with checked reads; `cellBoard[y][x]` is read
only when `neighbors == 2` (the `&&` of C evaluates its right operand only then). -/
def determineStateChecked (N : Nat) (cellBoard : Nat → Nat → Bool) (neighbors : Int)
    (x y : Int) : Option Bool :=
  if neighbors == 2 then
    (loadChecked N cellBoard y x).bind fun v =>
      if v == true then some true
      else if neighbors == 3 then some true
      else some false
  else if neighbors == 3 then some true
  else some false

/-- One `if (cellBoard[r][c] != 0) neighbors++;` with a checked read. -/
def bumpChecked (N : Nat) (cellBoard : Nat → Nat → Bool) (r c : Int) (neighbors : Int) :
    Option Int :=
  (loadChecked N cellBoard r c).bind fun v =>
    some (if v != false then neighbors + 1 else neighbors)

/-- The eight conditional increments of `toroidTick` with checked reads. -/
def countNeighborsChecked (N : Nat) (cellBoard : Nat → Nat → Bool) (neighbors : Int)
    (x y tmpx0 tmpx1 tmpy0 tmpy1 : Int) : Option Int :=
  (bumpChecked N cellBoard tmpy1 tmpx0 neighbors).bind fun neighbors =>
  (bumpChecked N cellBoard tmpy1 x neighbors).bind fun neighbors =>
  (bumpChecked N cellBoard tmpy1 tmpx1 neighbors).bind fun neighbors =>
  (bumpChecked N cellBoard y tmpx0 neighbors).bind fun neighbors =>
  (bumpChecked N cellBoard y tmpx1 neighbors).bind fun neighbors =>
  (bumpChecked N cellBoard tmpy0 tmpx0 neighbors).bind fun neighbors =>
  (bumpChecked N cellBoard tmpy0 x neighbors).bind fun neighbors =>
  bumpChecked N cellBoard tmpy0 tmpx1 neighbors

/-- The body of the inner loop of `toroidTick` with checked array accesses. -/
def tickCellChecked (N : Nat) (y tmpy0 tmpy1 : Int) (x : Nat) :
    State × Int → Option (State × Int)
  | (s, neighbors) =>
    (countNeighborsChecked N s.cellBoard neighbors x y (tmpLow N x) (tmpHigh N x)
      tmpy0 tmpy1).bind fun neighbors =>
    (determineStateChecked N s.cellBoard neighbors x y).bind fun v =>
    (storeChecked N s.cellBuffer y x v).bind fun buffer =>
    (loadChecked N buffer y x).bind fun w =>
    let s : State := { s with cellBuffer := buffer }
    let s : State :=
      if w != false then { s with nLiving := (s.nLiving + 1) % UINT64_MOD } else s
    some (s, 0)

/-- The body of the outer loop of `toroidTick` with checked array accesses. -/
def tickRowChecked (N y : Nat) (st : State × Int) : Option (State × Int) :=
  forLoopChecked (tickCellChecked N y (tmpLow N y) (tmpHigh N y)) N st

/-- The function `toroidTick` with checked array accesses. -/
def toroidTickChecked (N : Nat) (s : State) : Option State :=
  (forLoopChecked (tickRowChecked N) N ({ s with nLiving := 0 }, 0)).bind fun st =>
    some { st.1 with generation := (st.1.generation + 1) % UINT64_MOD }

/-- The function `update` with checked array accesses. -/
def updateChecked (N : Nat) (s : State) : Option State :=
  forLoopChecked (fun x s =>
    forLoopChecked (fun y s =>
      (loadChecked N s.cellBuffer y x).bind fun v =>
      (storeChecked N s.cellBoard y x v).bind fun board =>
      some { s with cellBoard := board }) N s) N s

/-! ## Translations of the torus -/

/-- The board `b` translated by `(a, c)`: the cell `(x, y)` of the result is
the cell `((x - a) mod N, (y - c) mod N)` of `b`. -/
def shift (N : Nat) (a c : Int) (b : Nat → Nat → Bool) : Nat → Nat → Bool :=
  fun y x => b (torus N y (-c)) (torus N x (-a))

/-! ## Sample states -/

/-- A sample state: the initial globals with a horizontal blinker on the board
(row 2, columns 1 to 3). -/
def blinkerState : State :=
  { initState with cellBoard := fun r c => decide (r = 2 ∧ (c = 1 ∨ c = 2 ∨ c = 3)) }

/-- A sample state: the initial globals with one live cell, at row 2, column 2. -/
def cornerState : State :=
  { initState with cellBoard := fun r c => decide (r = 2 ∧ c = 2) }

/-- A sample state: a block that wraps around the corner of a `4 x 4` board
(rows 3 and 0, columns 3 and 0); `nLiving` holds a stale value. -/
def blockState : State :=
  { initState with
      cellBoard := fun r c => decide ((r = 3 ∨ r = 0) ∧ (c = 3 ∨ c = 0))
      nLiving := 7 }

/-- A sample state: the initial globals with one live cell, at row 0, column 0. -/
def loneState : State :=
  { initState with cellBoard := fun r c => decide (r = 0 ∧ c = 0) }

/-- A sample state with the board of `blinkerState` and other values in every
other global. -/
def blinkerStateB : State :=
  { Paused := true
    cellBoard := blinkerState.cellBoard
    cellBuffer := fun _ _ => true
    nLiving := 99
    generation := 5 }

/-- A sample state: the blinker of `blinkerState` moved 3 columns to the right
and 1 row up on the `5 x 5` torus (row 1, columns 4, 0 and 1). -/
def blinkerShifted : State :=
  { initState with cellBoard := fun r c => decide (r = 1 ∧ (c = 4 ∨ c = 0 ∨ c = 1)) }

/-- A sample C library generator: after `srand(v)` the calls of `rand()` return
`v, v + 1, v + 2, ...`. -/
def sampleRand (v k : Nat) : Nat := v + k

/-! # Theorems -/

/-! ## Closed forms of the loops -/

theorem State.ext' {s t : State} (h1 : s.Paused = t.Paused) (h2 : s.cellBoard = t.cellBoard)
    (h3 : s.cellBuffer = t.cellBuffer) (h4 : s.nLiving = t.nLiving)
    (h5 : s.generation = t.generation) : s = t := by
  cases s; cases t; simp_all

theorem rowLive_zero (b : Nat → Nat → Bool) (y : Nat) : rowLive b y 0 = 0 := by
  simp [rowLive]

theorem rowLive_succ (b : Nat → Nat → Bool) (y x : Nat) :
    rowLive b y (x + 1) = rowLive b y x + (if b y x = true then 1 else 0) := by
  simp [rowLive, List.range_succ, List.countP_append, List.countP_cons]

theorem tickCell_loop (N y : Nat) (x : Nat) (s : State) (a : Nat)
    (ha : s.nLiving = a % UINT64_MOD) :
    forLoop (tickCell N y (wrapLow N y) (wrapHigh N y)) x (s, 0) =
      ({ s with
          cellBuffer := fun r c =>
            if r = y ∧ c < x then nextCell N s.cellBoard r c else s.cellBuffer r c
          nLiving := (a + rowLive (nextCell N s.cellBoard) y x) % UINT64_MOD }, 0) := by
  induction x with
  | zero =>
    simp only [forLoop, rowLive_zero, Nat.add_zero, Prod.mk.injEq, and_true]
    apply State.ext' <;> simp [ha]
  | succ x ih =>
    simp only [forLoop, ih, tickCell, cellNeighbors, rowLive_succ]
    have hn : determineState s.cellBoard
        (countNeighbors s.cellBoard 0 x y (wrapLow N x) (wrapHigh N x) (wrapLow N y) (wrapHigh N y)) x y
        = nextCell N s.cellBoard y x := rfl
    rw [hn]
    simp only [Prod.mk.injEq, and_true]
    have hst : store (fun r c => if r = y ∧ c < x then nextCell N s.cellBoard r c
          else s.cellBuffer r c) y x (nextCell N s.cellBoard y x) =
        fun r c => if r = y ∧ c < x + 1 then nextCell N s.cellBoard r c else s.cellBuffer r c := by
      funext r c
      simp only [store]
      by_cases h1 : r = y ∧ c = x
      · obtain ⟨rfl, rfl⟩ := h1
        simp
      · by_cases h2 : r = y ∧ c < x
        · have h3 : r = y ∧ c < x + 1 := ⟨h2.1, by omega⟩
          have h4 : c ≠ x := by omega
          simp [h2, h3, h4]
        · have h3 : ¬ (r = y ∧ c < x + 1) := by
            rintro ⟨h4, h5⟩
            rcases Nat.lt_succ_iff_lt_or_eq.mp h5 with h6 | h6
            · exact h2 ⟨h4, h6⟩
            · exact h1 ⟨h4, h6⟩
          simp [h1, h2, h3]
    rw [hst]
    cases hv : nextCell N s.cellBoard y x
    · apply State.ext' <;> simp [hv]
    · apply State.ext' <;> simp [hv, Nat.add_assoc]

theorem liveRows_zero (N : Nat) (b : Nat → Nat → Bool) : liveRows N b 0 = 0 := by
  simp [liveRows]

theorem liveRows_succ (N : Nat) (b : Nat → Nat → Bool) (y : Nat) :
    liveRows N b (y + 1) = liveRows N b y + rowLive b y N := by
  simp [liveRows, List.range_succ]

theorem liveCount_eq_liveRows (N : Nat) (b : Nat → Nat → Bool) :
    liveCount N b = liveRows N b N := rfl

theorem forLoop_zero {σ : Type} (body : Nat → σ → σ) (s : σ) :
    forLoop body 0 s = s := rfl

theorem forLoop_succ {σ : Type} (body : Nat → σ → σ) (n : Nat) (s : σ) :
    forLoop body (n + 1) s = body n (forLoop body n s) := rfl

theorem tickRow_loop (N : Nat) (y : Nat) (s : State) (a : Nat)
    (ha : s.nLiving = a % UINT64_MOD) :
    forLoop (tickRow N) y (s, 0) =
      ({ s with
          cellBuffer := fun r c =>
            if r < y ∧ c < N then nextCell N s.cellBoard r c else s.cellBuffer r c
          nLiving := (a + liveRows N (nextCell N s.cellBoard) y) % UINT64_MOD }, 0) := by
  induction y with
  | zero =>
    simp only [forLoop, liveRows_zero, Nat.add_zero, Prod.mk.injEq, and_true]
    apply State.ext' <;> simp [ha]
  | succ y ih =>
    simp only [forLoop, ih, tickRow]
    rw [tickCell_loop N y N _ (a + liveRows N (nextCell N s.cellBoard) y) rfl]
    simp only [Prod.mk.injEq, and_true, liveRows_succ]
    apply State.ext'
    · rfl
    · rfl
    · funext r c
      simp only
      by_cases h1 : r = y ∧ c < N
      · have h2 : r < y + 1 ∧ c < N := ⟨by omega, h1.2⟩
        simp [h1, h2]
      · by_cases h2 : r < y ∧ c < N
        · have h3 : r < y + 1 ∧ c < N := ⟨by omega, h2.2⟩
          simp [h1, h2, h3]
        · have h3 : ¬ (r < y + 1 ∧ c < N) := by
            rintro ⟨h4, h5⟩
            rcases Nat.lt_succ_iff_lt_or_eq.mp h4 with h6 | h6
            · exact h2 ⟨h6, h5⟩
            · exact h1 ⟨h6, h5⟩
          simp [h1, h2, h3]
    · simp [Nat.add_assoc]
    · rfl

/-- Closed form of `toroidTick`. -/
theorem toroidTick_eq (N : Nat) (s : State) :
    toroidTick N s =
      { Paused := s.Paused
        cellBoard := s.cellBoard
        cellBuffer := fun r c =>
          if r < N ∧ c < N then nextCell N s.cellBoard r c else s.cellBuffer r c
        nLiving := liveCount N (nextCell N s.cellBoard) % UINT64_MOD
        generation := (s.generation + 1) % UINT64_MOD } := by
  unfold toroidTick
  rw [tickRow_loop N N { s with nLiving := 0 } 0 rfl]
  simp [liveCount_eq_liveRows]

theorem update_inner (x : Nat) (n : Nat) (s : State) :
    forLoop (fun y s => { s with cellBoard := store s.cellBoard y x (s.cellBuffer y x) }) n s =
      { s with cellBoard := fun r c =>
          if r < n ∧ c = x then s.cellBuffer r c else s.cellBoard r c } := by
  induction n with
  | zero => simp [forLoop]
  | succ n ih =>
    simp only [forLoop, ih]
    apply State.ext'
    · rfl
    · funext r c
      simp only [store]
      by_cases h1 : r = n ∧ c = x
      · obtain ⟨rfl, rfl⟩ := h1
        simp
      · by_cases h2 : r < n ∧ c = x
        · have h3 : r < n + 1 ∧ c = x := ⟨by omega, h2.2⟩
          have h4 : r ≠ n := by omega
          simp [h2, h3, h4]
        · have h3 : ¬ (r < n + 1 ∧ c = x) := by
            rintro ⟨h4, h5⟩
            rcases Nat.lt_succ_iff_lt_or_eq.mp h4 with h6 | h6
            · exact h2 ⟨h6, h5⟩
            · exact h1 ⟨h6, h5⟩
          simp [h1, h2, h3]
    · rfl
    · rfl
    · rfl

/-- Closed form of `update`. -/
theorem update_eq (N : Nat) (s : State) :
    update N s =
      { s with cellBoard := fun r c =>
          if r < N ∧ c < N then s.cellBuffer r c else s.cellBoard r c } := by
  unfold update
  suffices h : ∀ n, forLoop (fun x s =>
      forLoop (fun y s => { s with cellBoard := store s.cellBoard y x (s.cellBuffer y x) }) N s) n s =
      { s with cellBoard := fun r c =>
          if r < N ∧ c < n then s.cellBuffer r c else s.cellBoard r c } from h N
  intro n
  induction n with
  | zero => simp [forLoop]
  | succ n ih =>
    rw [forLoop_succ, ih]
    simp only [update_inner]
    apply State.ext'
    · rfl
    · funext r c
      simp only
      by_cases h1 : r < N ∧ c = n
      · have h3 : r < N ∧ c < n + 1 := ⟨h1.1, by omega⟩
        simp [h1, h3]
      · by_cases h2 : r < N ∧ c < n
        · have h3 : r < N ∧ c < n + 1 := ⟨h2.1, by omega⟩
          simp [h1, h2, h3]
        · have h3 : ¬ (r < N ∧ c < n + 1) := by
            rintro ⟨h4, h5⟩
            rcases Nat.lt_succ_iff_lt_or_eq.mp h5 with h6 | h6
            · exact h2 ⟨h4, h6⟩
            · exact h1 ⟨h4, h6⟩
          simp [h1, h2, h3]
    · rfl
    · rfl
    · rfl

/-- Closed form of `Step`. -/
theorem Step_eq (N : Nat) (s : State) :
    Step N s =
      { Paused := s.Paused
        cellBoard := fun r c =>
          if r < N ∧ c < N then nextCell N s.cellBoard r c else s.cellBoard r c
        cellBuffer := fun r c =>
          if r < N ∧ c < N then nextCell N s.cellBoard r c else s.cellBuffer r c
        nLiving := liveCount N (nextCell N s.cellBoard) % UINT64_MOD
        generation := (s.generation + 1) % UINT64_MOD } := by
  unfold Step
  rw [toroidTick_eq, update_eq]
  apply State.ext'
  · rfl
  · funext r c
    by_cases h : r < N ∧ c < N <;> simp [h]
  · rfl
  · rfl
  · rfl

/-! ## The rule and the neighbour count -/

theorem determineState_iff (b : Nat → Nat → Bool) (neighbors : Int) (x y : Nat) :
    determineState b neighbors x y = true ↔
      ((b y x = true ∧ neighbors = 2) ∨ neighbors = 3) := by
  unfold determineState
  by_cases h2 : neighbors = 2 <;> by_cases h3 : neighbors = 3 <;>
    cases hb : b y x <;> simp [h2, h3]

theorem bump_eq (b : Nat → Nat → Bool) (r c : Nat) (n : Int) :
    bump b r c n = n + ((b r c).toNat : Int) := by
  unfold bump
  cases b r c <;> simp

theorem countNeighbors_eq (b : Nat → Nat → Bool) (n : Int) (x y tmpx0 tmpx1 tmpy0 tmpy1 : Nat) :
    countNeighbors b n x y tmpx0 tmpx1 tmpy0 tmpy1 =
      n + (liveAround b x y tmpx0 tmpx1 tmpy0 tmpy1 : Int) := by
  simp only [countNeighbors, bump_eq, liveAround]
  push_cast
  ring

theorem liveAround_le (b : Nat → Nat → Bool) (x y tmpx0 tmpx1 tmpy0 tmpy1 : Nat) :
    liveAround b x y tmpx0 tmpx1 tmpy0 tmpy1 ≤ 8 := by
  unfold liveAround
  have h : ∀ v : Bool, v.toNat ≤ 1 := fun v => Bool.toNat_le v
  have h1 := h (b tmpy1 tmpx0)
  have h2 := h (b tmpy1 x)
  have h3 := h (b tmpy1 tmpx1)
  have h4 := h (b y tmpx0)
  have h5 := h (b y tmpx1)
  have h6 := h (b tmpy0 tmpx0)
  have h7 := h (b tmpy0 x)
  have h8 := h (b tmpy0 tmpx1)
  omega

/-! ### Wrapped indices -/

theorem wrapLow_eq (N i : Nat) : wrapLow N i = if i = 0 then N - 1 else i - 1 := by
  unfold wrapLow
  by_cases h : i = 0
  · simp [h]
  · have : ¬ ((i : Int) - 1 < 0) := by omega
    simp [h, this]

theorem wrapLow_lt (N i : Nat) (hi : i < N) : wrapLow N i < N := by
  rw [wrapLow_eq]; split <;> omega

theorem wrapHigh_lt (N i : Nat) (hi : i < N) : wrapHigh N i < N := by
  unfold wrapHigh; split <;> omega

theorem torus_zero (N i : Nat) (hi : i < N) : torus N i 0 = i := by
  unfold torus
  rw [Int.add_zero, Int.emod_eq_of_lt (by omega) (by omega)]
  simp

theorem torus_one (N i : Nat) (hi : i < N) : torus N i 1 = wrapHigh N i := by
  unfold torus wrapHigh
  by_cases h : i + 1 = N
  · have : ((i : Int) + 1) = (N : Int) := by omega
    simp [h, this]
  · rw [Int.emod_eq_of_lt (by omega) (by omega)]
    simp [h]

theorem torus_neg_one (N i : Nat) (hi : i < N) : torus N i (-1) = wrapLow N i := by
  rw [wrapLow_eq]
  unfold torus
  by_cases h : i = 0
  · subst h
    have h1 : ((0 : Nat) : Int) + -1 = ((N : Int) - 1) + (N : Int) * (-1) := by ring
    rw [h1, Int.add_mul_emod_self_left, Int.emod_eq_of_lt (by omega) (by omega)]
    simp
  · rw [Int.emod_eq_of_lt (by omega) (by omega)]
    simp [h]
    omega

theorem liveAround_eq_refCount (N : Nat) (b : Nat → Nat → Bool) (x y : Nat)
    (hx : x < N) (hy : y < N) :
    liveAround b x y (wrapLow N x) (wrapHigh N x) (wrapLow N y) (wrapHigh N y) =
      refCount N b x y := by
  simp only [refCount, offsets, List.countP_cons, List.countP_nil,
    torus_zero N x hx, torus_zero N y hy, torus_one N x hx, torus_one N y hy,
    torus_neg_one N x hx, torus_neg_one N y hy, liveAround]
  generalize b (wrapHigh N y) (wrapLow N x) = v1
  generalize b (wrapHigh N y) x = v2
  generalize b (wrapHigh N y) (wrapHigh N x) = v3
  generalize b y (wrapLow N x) = v4
  generalize b y (wrapHigh N x) = v5
  generalize b (wrapLow N y) (wrapLow N x) = v6
  generalize b (wrapLow N y) x = v7
  generalize b (wrapLow N y) (wrapHigh N x) = v8
  revert v1 v2 v3 v4 v5 v6 v7 v8
  decide

theorem nextCell_iff (N : Nat) (b : Nat → Nat → Bool) (r c : Nat) :
    nextCell N b r c = true ↔
      ((b r c = true ∧
          liveAround b c r (wrapLow N c) (wrapHigh N c) (wrapLow N r) (wrapHigh N r) = 2) ∨
        liveAround b c r (wrapLow N c) (wrapHigh N c) (wrapLow N r) (wrapHigh N r) = 3) := by
  unfold nextCell
  rw [determineState_iff, countNeighbors_eq]
  generalize liveAround b c r (wrapLow N c) (wrapHigh N c) (wrapLow N r) (wrapHigh N r) = L
  have h2 : ((0 : Int) + (L : Int) = 2) ↔ L = 2 := by omega
  have h3 : ((0 : Int) + (L : Int) = 3) ↔ L = 3 := by omega
  rw [h2, h3]

theorem Step_cellBoard (N : Nat) (s : State) (r c : Nat) (hr : r < N) (hc : c < N) :
    (Step N s).cellBoard r c = nextCell N s.cellBoard r c := by
  rw [Step_eq]
  simp [hr, hc]
/-! ## The loop states of `toroidTick` -/

theorem tickEntry_succ (N : Nat) (s : State) (y x : Nat) :
    tickEntry N s y (x + 1) =
      tickCell N y (wrapLow N y) (wrapHigh N y) x (tickEntry N s y x) := rfl

theorem tickEntry_next_row (N : Nat) (s : State) (y : Nat) :
    tickEntry N s (y + 1) 0 = tickEntry N s y N := rfl

theorem toroidTick_eq_tickEntry (N : Nat) (s : State) :
    toroidTick N s =
      { (tickEntry N s N 0).1 with
          generation := ((tickEntry N s N 0).1.generation + 1) % UINT64_MOD } := rfl

theorem tickCell_cellBuffer (N y tmpy0 tmpy1 x : Nat) (st : State × Int) :
    (tickCell N y tmpy0 tmpy1 x st).1.cellBuffer y x =
      determineState st.1.cellBoard (cellNeighbors N y tmpy0 tmpy1 x st) x y := by
  obtain ⟨s, n⟩ := st
  simp only [tickCell]
  split <;> simp [store]

/-- Closed form of the loop state of `toroidTick` at the entry of a cell body. -/
theorem tickEntry_eq (N : Nat) (s : State) (y x : Nat) :
    tickEntry N s y x =
      ({ Paused := s.Paused
         cellBoard := s.cellBoard
         cellBuffer := fun r c =>
           if r = y ∧ c < x then nextCell N s.cellBoard r c
           else if r < y ∧ c < N then nextCell N s.cellBoard r c else s.cellBuffer r c
         nLiving := (liveRows N (nextCell N s.cellBoard) y +
           rowLive (nextCell N s.cellBoard) y x) % UINT64_MOD
         generation := s.generation }, 0) := by
  unfold tickEntry
  rw [tickRow_loop N y { s with nLiving := 0 } 0 rfl,
    tickCell_loop N y x _ (0 + liveRows N (nextCell N s.cellBoard) y) rfl]
  simp

theorem cellNeighbors_tickEntry (N : Nat) (s : State) (y x : Nat) :
    cellNeighbors N y (wrapLow N y) (wrapHigh N y) x (tickEntry N s y x) =
      (liveAround s.cellBoard x y (wrapLow N x) (wrapHigh N x) (wrapLow N y) (wrapHigh N y) : Int) := by
  rw [tickEntry_eq]
  simp only [cellNeighbors, countNeighbors_eq]
  omega

/-! ## The claims -/

/-- C1: for every board, one `Step` (`toroidTick` then `update`) leaves in
`cellBoard` the reference next generation: for every cell `(x, y)` of the
board, the new `cellBoard[y][x]` is alive iff `rule` holds of the old
`cellBoard[y][x]` and of the number of the eight offsets `(dx, dy)` whose cell
`((x + dx) mod N, (y + dy) mod N)` was alive. -/
theorem Step_cellBoard_iff_rule (N : Nat) (s : State) (x y : Nat) (hx : x < N) (hy : y < N) :
    (Step N s).cellBoard y x = true ↔
      rule (s.cellBoard y x) (refCount N s.cellBoard x y) := by
  rw [Step_cellBoard N s y x hy hx, nextCell_iff, liveAround_eq_refCount N _ x y hx hy]
  rfl

theorem Step_cellBoard_iff_rule_witness :
    1 < 5 ∧ 2 < 5 ∧
      ((Step 5 blinkerState).cellBoard 2 1 = true ↔
        rule (blinkerState.cellBoard 2 1) (refCount 5 blinkerState.cellBoard 1 2)) :=
  ⟨by decide, by decide, Step_cellBoard_iff_rule 5 blinkerState 1 2 (by decide) (by decide)⟩

/-- C2: for every integer `neighbors` and every cell `(x, y)`,
`determineState(neighbors, x, y)` returns alive iff (`cellBoard[y][x]` is alive
and `neighbors = 2`) or `neighbors = 3`; so a dead cell becomes alive exactly
when `neighbors = 3`, a live cell stays alive exactly when `neighbors` is 2 or
3, and every other pair gives dead. -/
theorem determineState_rule (cellBoard : Nat → Nat → Bool) (neighbors : Int) (x y : Nat) :
    (determineState cellBoard neighbors x y = true ↔
        ((cellBoard y x = true ∧ neighbors = 2) ∨ neighbors = 3)) ∧
      (cellBoard y x = false →
        (determineState cellBoard neighbors x y = true ↔ neighbors = 3)) ∧
      (cellBoard y x = true →
        (determineState cellBoard neighbors x y = true ↔ (neighbors = 2 ∨ neighbors = 3))) ∧
      (¬ ((cellBoard y x = true ∧ neighbors = 2) ∨ neighbors = 3) →
        determineState cellBoard neighbors x y = false) := by
  have h := determineState_iff cellBoard neighbors x y
  refine ⟨h, ?_, ?_, ?_⟩
  · intro hd
    rw [h, hd]
    simp
  · intro ha
    rw [h, ha]
    simp
  · intro hn
    rw [← h] at hn
    simpa using hn

/-- C3: for every dimension `N >= 1`, every board and every cell `(x, y)`, the
variable `neighbors` is `0` when `toroidTick` enters the body for the cell (it
is reset for each cell and carries nothing over), and the count that the body
computes and passes to `determineState` is at least 0 and at most 8. -/
theorem cellNeighbors_bounds (N : Nat) (s : State) (x y : Nat)
    (hN : 1 ≤ N) (hx : x < N) (hy : y < N) :
    (tickEntry N s y x).2 = 0 ∧
      (tickEntry N s y (x + 1)).1.cellBuffer y x =
        determineState (tickEntry N s y x).1.cellBoard
          (cellNeighbors N y (wrapLow N y) (wrapHigh N y) x (tickEntry N s y x)) x y ∧
      0 ≤ cellNeighbors N y (wrapLow N y) (wrapHigh N y) x (tickEntry N s y x) ∧
      cellNeighbors N y (wrapLow N y) (wrapHigh N y) x (tickEntry N s y x) ≤ 8 := by
  refine ⟨?_, ?_, ?_, ?_⟩
  · rw [tickEntry_eq]
  · rw [tickEntry_succ, tickCell_cellBuffer]
  · rw [cellNeighbors_tickEntry]
    omega
  · rw [cellNeighbors_tickEntry]
    have := liveAround_le s.cellBoard x y (wrapLow N x) (wrapHigh N x) (wrapLow N y) (wrapHigh N y)
    omega

theorem cellNeighbors_bounds_witness :
    1 ≤ 1 ∧ 0 < 1 ∧ 0 < 1 ∧
      (tickEntry 1 { initState with cellBoard := fun _ _ => true } 0 0).2 = 0 ∧
      cellNeighbors 1 0 (wrapLow 1 0) (wrapHigh 1 0) 0
        (tickEntry 1 { initState with cellBoard := fun _ _ => true } 0 0) ≤ 8 :=
  ⟨by decide, by decide, by decide,
    (cellNeighbors_bounds 1 { initState with cellBoard := fun _ _ => true } 0 0
      (by decide) (by decide) (by decide)).1,
    (cellNeighbors_bounds 1 { initState with cellBoard := fun _ _ => true } 0 0
      (by decide) (by decide) (by decide)).2.2.2⟩
/-! ## Boards that are products of a row set and a column set -/

theorem liveAround_product (N : Nat) (b : Nat → Nat → Bool) (R C : Nat → Bool) (x y : Nat)
    (hx : x < N) (hy : y < N) (hb : ∀ r < N, ∀ c < N, b r c = (R r && C c)) :
    liveAround b x y (wrapLow N x) (wrapHigh N x) (wrapLow N y) (wrapHigh N y) +
        (R y && C x).toNat =
      ((R (wrapLow N y)).toNat + (R y).toNat + (R (wrapHigh N y)).toNat) *
        ((C (wrapLow N x)).toNat + (C x).toNat + (C (wrapHigh N x)).toNat) := by
  have hxl := wrapLow_lt N x hx
  have hxh := wrapHigh_lt N x hx
  have hyl := wrapLow_lt N y hy
  have hyh := wrapHigh_lt N y hy
  simp only [liveAround, hb _ hyh _ hxl, hb _ hyh _ hx, hb _ hyh _ hxh, hb _ hy _ hxl,
    hb _ hy _ hxh, hb _ hyl _ hxl, hb _ hyl _ hx, hb _ hyl _ hxh]
  generalize R (wrapLow N y) = r0
  generalize R y = r1
  generalize R (wrapHigh N y) = r2
  generalize C (wrapLow N x) = c0
  generalize C x = c1
  generalize C (wrapHigh N x) = c2
  revert r0 r1 r2 c0 c1 c2
  decide

theorem wrapLow_ne_self (N i : Nat) (hN : 2 ≤ N) : wrapLow N i ≠ i := by
  rw [wrapLow_eq]; split <;> omega

theorem wrapHigh_ne_self (N i : Nat) (hN : 2 ≤ N) : wrapHigh N i ≠ i := by
  unfold wrapHigh; split <;> omega

theorem wrapLow_ne_wrapHigh (N i : Nat) (hN : 3 ≤ N) :
    wrapLow N i ≠ wrapHigh N i := by
  rw [wrapLow_eq]; unfold wrapHigh; split <;> split <;> omega

/-- On a board of dimension at least 3 whose only live cell is `(cx, cy)`, the
number of live cells around `(x, y)` is the product of the two one-dimensional
adjacency indicators, less the cell itself. -/
theorem liveAround_single (N : Nat) (b : Nat → Nat → Bool) (cx cy x y : Nat)
    (hx : x < N) (hy : y < N)
    (hb : ∀ r < N, ∀ c < N, (b r c = true ↔ (r = cy ∧ c = cx))) :
    liveAround b x y (wrapLow N x) (wrapHigh N x) (wrapLow N y) (wrapHigh N y) +
        (decide (y = cy) && decide (x = cx)).toNat =
      ((decide (wrapLow N y = cy)).toNat + (decide (y = cy)).toNat +
          (decide (wrapHigh N y = cy)).toNat) *
        ((decide (wrapLow N x = cx)).toNat + (decide (x = cx)).toNat +
          (decide (wrapHigh N x = cx)).toNat) := by
  apply liveAround_product N b (fun r => decide (r = cy)) (fun c => decide (c = cx)) x y hx hy
  intro r hr c hc
  rw [Bool.eq_iff_iff, hb r hr c hc]
  simp

/-- C4: wraparound at edges and corners.  For every dimension `N >= 3`, every
cell `(x, y)` and every offset `(dx, dy)` other than `(0, 0)`, on a board whose
only live cell is `((x + dx) mod N, (y + dy) mod N)` the neighbour count that
`toroidTick` computes for `(x, y)` is exactly 1; in particular, for the cell
`(0, 0)` the live cell `(N - 1, N - 1)` is counted once. -/
theorem cellNeighbors_single_neighbor (N : Nat) (s : State) (x y : Nat) (dx dy : Int)
    (hN : 3 ≤ N) (hx : x < N) (hy : y < N) (hd : (dx, dy) ∈ offsets)
    (hb : ∀ r < N, ∀ c < N,
      (s.cellBoard r c = true ↔ (r = torus N y dy ∧ c = torus N x dx))) :
    cellNeighbors N y (wrapLow N y) (wrapHigh N y) x (tickEntry N s y x) = 1 ∧
      ∀ t : State,
        (∀ r < N, ∀ c < N, (t.cellBoard r c = true ↔ (r = N - 1 ∧ c = N - 1))) →
        cellNeighbors N 0 (wrapLow N 0) (wrapHigh N 0) 0 (tickEntry N t 0 0) = 1 := by
  have key : ∀ (t : State) (u v : Nat) (ex ey : Int), u < N → v < N → (ex, ey) ∈ offsets →
      (∀ r < N, ∀ c < N,
        (t.cellBoard r c = true ↔ (r = torus N v ey ∧ c = torus N u ex))) →
      cellNeighbors N v (wrapLow N v) (wrapHigh N v) u (tickEntry N t v u) = 1 := by
    intro t u v ex ey hu hv he ht
    rw [cellNeighbors_tickEntry]
    have h := liveAround_single N t.cellBoard (torus N u ex) (torus N v ey) u v hu hv ht
    have a1 := wrapLow_ne_self N u (by omega)
    have a2 := wrapHigh_ne_self N u (by omega)
    have a3 := wrapLow_ne_wrapHigh N u hN
    have b1 := wrapLow_ne_self N v (by omega)
    have b2 := wrapHigh_ne_self N v (by omega)
    have b3 := wrapLow_ne_wrapHigh N v hN
    have t0u := torus_zero N u hu
    have t1u := torus_one N u hu
    have t2u := torus_neg_one N u hu
    have t0v := torus_zero N v hv
    have t1v := torus_one N v hv
    have t2v := torus_neg_one N v hv
    simp only [offsets, List.mem_cons, Prod.mk.injEq, List.mem_nil_iff, or_false] at he
    rcases he with e | e | e | e | e | e | e | e <;>
    · obtain ⟨rfl, rfl⟩ := e
      simp only [t0u, t1u, t2u, t0v, t1v, t2v] at h
      simp [a1, a2, a3, b1, b2, b3, a1.symm, a2.symm, a3.symm, b1.symm, b2.symm, b3.symm] at h
      omega
  refine ⟨key s x y dx dy hx hy hd hb, ?_⟩
  intro t ht
  apply key t 0 0 (-1) (-1) (by omega) (by omega) (by simp [offsets])
  intro r hr c hc
  rw [ht r hr c hc, torus_neg_one N 0 (by omega), wrapLow_eq]
  simp

theorem cellNeighbors_single_neighbor_witness :
    (∀ r < 3, ∀ c < 3,
        (cornerState.cellBoard r c = true ↔ (r = torus 3 0 (-1) ∧ c = torus 3 0 (-1)))) ∧
      cellNeighbors 3 0 (wrapLow 3 0) (wrapHigh 3 0) 0 (tickEntry 3 cornerState 0 0) = 1 :=
  ⟨by decide,
    (cellNeighbors_single_neighbor 3 cornerState 0 0 (-1) (-1) (by decide) (by decide)
      (by decide) (by decide) (by decide)).1⟩
/-! ## Counters -/

theorem Step_generation (N : Nat) (s : State) :
    (Step N s).generation = (s.generation + 1) % UINT64_MOD := by
  rw [Step_eq]

theorem steps_generation (N : Nat) (s : State) (k : Nat) (h0 : s.generation = 0) :
    (steps N k s).generation = k % UINT64_MOD := by
  induction k with
  | zero => simp [steps, h0]
  | succ k ih => simp [steps, Step_generation, ih]

theorem rowLive_congr (b b' : Nat → Nat → Bool) (y x : Nat)
    (h : ∀ c < x, b y c = b' y c) : rowLive b y x = rowLive b' y x := by
  induction x with
  | zero => simp [rowLive_zero]
  | succ x ih =>
    rw [rowLive_succ, rowLive_succ, ih (fun c hc => h c (by omega)), h x (by omega)]

theorem rowLive_le (b : Nat → Nat → Bool) (y x : Nat) : rowLive b y x ≤ x := by
  induction x with
  | zero => simp [rowLive_zero]
  | succ x ih =>
    rw [rowLive_succ]
    split <;> omega

theorem liveRows_congr (N : Nat) (b b' : Nat → Nat → Bool) (y : Nat)
    (h : ∀ r < y, ∀ c < N, b r c = b' r c) : liveRows N b y = liveRows N b' y := by
  induction y with
  | zero => simp [liveRows_zero]
  | succ y ih =>
    rw [liveRows_succ, liveRows_succ, ih (fun r hr => h r (by omega)),
      rowLive_congr b b' y N (h y (by omega))]

theorem liveRows_le (N : Nat) (b : Nat → Nat → Bool) (y : Nat) : liveRows N b y ≤ y * N := by
  induction y with
  | zero => simp [liveRows_zero]
  | succ y ih =>
    rw [liveRows_succ, Nat.succ_mul]
    have := rowLive_le b y N
    omega

theorem liveCount_congr (N : Nat) (b b' : Nat → Nat → Bool)
    (h : ∀ r < N, ∀ c < N, b r c = b' r c) : liveCount N b = liveCount N b' :=
  liveRows_congr N b b' N h

theorem liveCount_le (N : Nat) (b : Nat → Nat → Bool) : liveCount N b ≤ N * N :=
  liveRows_le N b N

theorem liveCount_dead (N : Nat) (b : Nat → Nat → Bool)
    (h : ∀ r < N, ∀ c < N, b r c = false) : liveCount N b = 0 := by
  rw [liveCount_congr N b (fun _ _ => false) h]
  simp [liveCount, rowLive]

theorem Step_nLiving (N : Nat) (s : State) :
    (Step N s).nLiving = liveCount N (Step N s).cellBoard % UINT64_MOD := by
  rw [liveCount_congr N (Step N s).cellBoard (nextCell N s.cellBoard)
    (fun r hr c hc => Step_cellBoard N s r c hr hc)]
  rw [Step_eq]

theorem Step_nLiving_eq (N : Nat) (s : State) (hN : N * N < 2 ^ 64) :
    (Step N s).nLiving = liveCount N (Step N s).cellBoard := by
  rw [Step_nLiving]
  apply Nat.mod_eq_of_lt
  have := liveCount_le N (Step N s).cellBoard
  unfold UINT64_MOD
  omega

/-- C5: generation bookkeeping.  Starting from a state with `generation = 0`
(the initial state), after `k` calls of `Step` the counter equals `k`, for
every `k` below `2^64`; each single `Step` increases `generation` by exactly 1
modulo `2^64`. -/
theorem generation_after_steps (N : Nat) (s : State) (k : Nat)
    (h0 : s.generation = 0) (hk : k < 2 ^ 64) :
    (steps N k s).generation = k ∧
      ∀ t : State, (Step N t).generation = (t.generation + 1) % 2 ^ 64 := by
  refine ⟨?_, fun t => Step_generation N t⟩
  rw [steps_generation N s k h0]
  exact Nat.mod_eq_of_lt hk

theorem generation_after_steps_witness :
    initState.generation = 0 ∧ 3 < 2 ^ 64 ∧ (steps 2 3 initState).generation = 3 :=
  ⟨rfl, by decide, (generation_after_steps 2 initState 3 rfl (by decide)).1⟩

/-- C6: live-count bookkeeping.  For every prior state (any board, any buffer,
any earlier `nLiving`), after a `Step` the counter `nLiving` equals the number
of live cells of `cellBoard` found by a full scan of the board; so the same
holds after `k >= 1` calls of `Step`, and `nLiving` never exceeds `N * N`.
The dimension is such that `N * N` fits the `uint64_t` counter, as it does for
`boardSize = 400`. -/
theorem nLiving_eq_liveCount (N : Nat) (s : State) (hN : N * N < 2 ^ 64) :
    (Step N s).nLiving = liveCount N (Step N s).cellBoard ∧
      (Step N s).nLiving ≤ N * N ∧
      ∀ k, 1 ≤ k →
        (steps N k s).nLiving = liveCount N (steps N k s).cellBoard ∧
          (steps N k s).nLiving ≤ N * N := by
  have h1 : ∀ t : State, (Step N t).nLiving = liveCount N (Step N t).cellBoard ∧
      (Step N t).nLiving ≤ N * N := by
    intro t
    have h := Step_nLiving_eq N t hN
    exact ⟨h, by rw [h]; exact liveCount_le N _⟩
  refine ⟨(h1 s).1, (h1 s).2, ?_⟩
  intro k hk
  obtain ⟨j, rfl⟩ : ∃ j, k = j + 1 := ⟨k - 1, by omega⟩
  exact h1 (steps N j s)

set_option maxRecDepth 100000 in
theorem nLiving_eq_liveCount_witness :
    5 * 5 < 2 ^ 64 ∧
      (Step 5 blinkerState).nLiving = liveCount 5 (Step 5 blinkerState).cellBoard ∧
      liveCount 5 (Step 5 blinkerState).cellBoard = 3 :=
  ⟨by decide, (nLiving_eq_liveCount 5 blinkerState (by decide)).1, by decide⟩

/-- The live-count bookkeeping at the dimension of the source. -/
theorem Step_nLiving_boardSize (s : State) :
    (Step boardSize s).nLiving = liveCount boardSize (Step boardSize s).cellBoard :=
  Step_nLiving_eq boardSize s (by decide)
/-! ## The empty board -/

theorem liveAround_dead (N : Nat) (b : Nat → Nat → Bool) (x y : Nat) (hx : x < N) (hy : y < N)
    (h : ∀ r < N, ∀ c < N, b r c = false) :
    liveAround b x y (wrapLow N x) (wrapHigh N x) (wrapLow N y) (wrapHigh N y) = 0 := by
  have hxl := wrapLow_lt N x hx
  have hxh := wrapHigh_lt N x hx
  have hyl := wrapLow_lt N y hy
  have hyh := wrapHigh_lt N y hy
  simp [liveAround, h _ hyh _ hxl, h _ hyh _ hx, h _ hyh _ hxh, h _ hy _ hxl,
    h _ hy _ hxh, h _ hyl _ hxl, h _ hyl _ hx, h _ hyl _ hxh]

theorem nextCell_dead (N : Nat) (b : Nat → Nat → Bool) (r c : Nat) (hr : r < N) (hc : c < N)
    (h : ∀ r < N, ∀ c < N, b r c = false) : nextCell N b r c = false := by
  rw [Bool.eq_false_iff]
  intro hn
  rw [nextCell_iff, liveAround_dead N b c r hc hr h] at hn
  omega

theorem Step_dead (N : Nat) (s : State) (h : ∀ r < N, ∀ c < N, s.cellBoard r c = false) :
    (∀ r < N, ∀ c < N, (Step N s).cellBoard r c = false) ∧ (Step N s).nLiving = 0 := by
  have h1 : ∀ r < N, ∀ c < N, (Step N s).cellBoard r c = false := by
    intro r hr c hc
    rw [Step_cellBoard N s r c hr hc]
    exact nextCell_dead N s.cellBoard r c hr hc h
  refine ⟨h1, ?_⟩
  rw [Step_nLiving, liveCount_dead N _ h1]
  rfl

theorem steps_dead (N : Nat) (s : State) (k : Nat)
    (h : ∀ r < N, ∀ c < N, s.cellBoard r c = false) :
    ∀ r < N, ∀ c < N, (steps N k s).cellBoard r c = false := by
  induction k with
  | zero => exact h
  | succ k ih => exact (Step_dead N (steps N k s) ih).1

/-- C7: fixed point.  If every cell of `cellBoard` is dead, then after any
number `k >= 0` of calls of `Step` every cell of `cellBoard` is still dead, and
after each such `Step` the counter `nLiving` is 0. -/
theorem dead_board_stays_dead (N : Nat) (s : State) (k : Nat)
    (h : ∀ r < N, ∀ c < N, s.cellBoard r c = false) :
    (∀ r < N, ∀ c < N, (steps N k s).cellBoard r c = false) ∧
      (steps N (k + 1) s).nLiving = 0 :=
  ⟨steps_dead N s k h, (Step_dead N (steps N k s) (steps_dead N s k h)).2⟩

set_option maxRecDepth 100000 in
theorem dead_board_stays_dead_witness :
    (∀ r < 3, ∀ c < 3, initState.cellBoard r c = false) ∧
      (∀ r < 3, ∀ c < 3, (steps 3 2 initState).cellBoard r c = false) ∧
      (steps 3 (2 + 1) initState).nLiving = 0 :=
  ⟨by decide, dead_board_stays_dead 3 initState 2 (by decide)⟩
/-! ## One-dimensional adjacency on the torus -/

theorem toNat_decide_cases (p : Prop) [Decidable p] :
    ((decide p).toNat = 1 ∧ p) ∨ ((decide p).toNat = 0 ∧ ¬ p) := by
  by_cases h : p <;> simp [h]

theorem wrapLow_cases (N i : Nat) :
    (i = 0 ∧ wrapLow N i = N - 1) ∨ (0 < i ∧ wrapLow N i = i - 1) := by
  rw [wrapLow_eq]; split <;> omega

theorem wrapHigh_cases (N i : Nat) :
    (i + 1 = N ∧ wrapHigh N i = 0) ∨ (i + 1 ≠ N ∧ wrapHigh N i = i + 1) := by
  unfold wrapHigh; split <;> omega

/-- Around a single marked index `j`: the three indices `i - 1, i, i + 1` (wrapped)
contain `j` at most once, and exactly when `i` is `j` or adjacent to `j`. -/
theorem around_point (N i j : Nat) (hN : 3 ≤ N) (hi : i < N) (hj : j < N) :
    (decide (wrapLow N i = j)).toNat + (decide (i = j)).toNat +
        (decide (wrapHigh N i = j)).toNat =
      (decide (i = wrapLow N j ∨ i = j ∨ i = wrapHigh N j)).toNat := by
  rcases wrapLow_cases N i with h1 | h1 <;> rcases wrapHigh_cases N i with h2 | h2 <;>
  rcases wrapLow_cases N j with h3 | h3 <;> rcases wrapHigh_cases N j with h4 | h4 <;>
  rcases toNat_decide_cases (wrapLow N i = j) with h5 | h5 <;>
  rcases toNat_decide_cases (i = j) with h6 | h6 <;>
  rcases toNat_decide_cases (wrapHigh N i = j) with h7 | h7 <;>
  rcases toNat_decide_cases (i = wrapLow N j ∨ i = j ∨ i = wrapHigh N j) with h8 | h8 <;>
  omega
/-- Around a marked triple `j - 1, j, j + 1` (wrapped), on a torus of length at
least 5: the three indices around `i` contain three marked ones exactly when
`i = j`, two exactly when `i` is adjacent to `j`, and never more than three. -/
theorem around_triple (N i j : Nat) (hN : 5 ≤ N) (hi : i < N) (hj : j < N)
    (T : Nat)
    (hT : T =
      (decide (wrapLow N i = wrapLow N j ∨ wrapLow N i = j ∨ wrapLow N i = wrapHigh N j)).toNat +
      (decide (i = wrapLow N j ∨ i = j ∨ i = wrapHigh N j)).toNat +
      (decide (wrapHigh N i = wrapLow N j ∨ wrapHigh N i = j ∨
        wrapHigh N i = wrapHigh N j)).toNat) :
    (T = 3 ↔ i = j) ∧ (T = 2 ↔ (i = wrapLow N j ∨ i = wrapHigh N j)) ∧ T ≤ 3 := by
  rcases wrapLow_cases N i with h1 | h1 <;> rcases wrapHigh_cases N i with h2 | h2 <;>
  rcases wrapLow_cases N j with h3 | h3 <;> rcases wrapHigh_cases N j with h4 | h4 <;>
  rcases toNat_decide_cases
    (wrapLow N i = wrapLow N j ∨ wrapLow N i = j ∨ wrapLow N i = wrapHigh N j) with h5 | h5 <;>
  rcases toNat_decide_cases (i = wrapLow N j ∨ i = j ∨ i = wrapHigh N j) with h6 | h6 <;>
  rcases toNat_decide_cases
    (wrapHigh N i = wrapLow N j ∨ wrapHigh N i = j ∨ wrapHigh N i = wrapHigh N j) with h7 | h7 <;>
  omega

/-- Around a marked pair `j, j + 1` (wrapped), on a torus of length at least 4:
the three indices around `i` contain both marked ones when `i` is marked, and
at most one otherwise. -/
theorem around_pair (N i j : Nat) (hN : 4 ≤ N) (hi : i < N) (hj : j < N)
    (T : Nat)
    (hT : T =
      (decide (wrapLow N i = j ∨ wrapLow N i = wrapHigh N j)).toNat +
      (decide (i = j ∨ i = wrapHigh N j)).toNat +
      (decide (wrapHigh N i = j ∨ wrapHigh N i = wrapHigh N j)).toNat) :
    ((i = j ∨ i = wrapHigh N j) → T = 2) ∧ (¬ (i = j ∨ i = wrapHigh N j) → T ≤ 1) := by
  rcases wrapLow_cases N i with h1 | h1 <;> rcases wrapHigh_cases N i with h2 | h2 <;>
  rcases wrapHigh_cases N j with h4 | h4 <;>
  rcases toNat_decide_cases (wrapLow N i = j ∨ wrapLow N i = wrapHigh N j) with h5 | h5 <;>
  rcases toNat_decide_cases (i = j ∨ i = wrapHigh N j) with h6 | h6 <;>
  rcases toNat_decide_cases (wrapHigh N i = j ∨ wrapHigh N i = wrapHigh N j) with h7 | h7 <;>
  omega
/-! ## The blinker -/

/-- A horizontal blinker centred at `(x, y)` turns into the vertical one. -/
theorem nextCell_blinker_row (N : Nat) (b : Nat → Nat → Bool) (x y : Nat)
    (hN : 5 ≤ N) (hx : x < N) (hy : y < N)
    (hb : ∀ r < N, ∀ c < N,
      (b r c = true ↔ (r = y ∧ (c = wrapLow N x ∨ c = x ∨ c = wrapHigh N x))))
    (r c : Nat) (hr : r < N) (hc : c < N) :
    nextCell N b r c = true ↔ (c = x ∧ (r = wrapLow N y ∨ r = y ∨ r = wrapHigh N y)) := by
  have hp := liveAround_product N b (fun r => decide (r = y))
    (fun c => decide (c = wrapLow N x ∨ c = x ∨ c = wrapHigh N x)) c r hc hr
    (by intro r hr c hc; rw [Bool.eq_iff_iff, hb r hr c hc]; simp)
  simp only [around_point N r y (by omega) hr hy, ← Bool.decide_and] at hp
  have ht := around_triple N c x hN hc hx _ rfl
  rw [nextCell_iff, hb r hr c hc]
  generalize liveAround b c r (wrapLow N c) (wrapHigh N c) (wrapLow N r) (wrapHigh N r) = L at hp ⊢
  revert hp ht
  generalize (decide (wrapLow N c = wrapLow N x ∨ wrapLow N c = x ∨
      wrapLow N c = wrapHigh N x)).toNat +
    (decide (c = wrapLow N x ∨ c = x ∨ c = wrapHigh N x)).toNat +
    (decide (wrapHigh N c = wrapLow N x ∨ wrapHigh N c = x ∨
      wrapHigh N c = wrapHigh N x)).toNat = TT
  intro ht hp
  rcases toNat_decide_cases (r = wrapLow N y ∨ r = y ∨ r = wrapHigh N y) with h1 | h1 <;>
  rcases toNat_decide_cases
    (r = y ∧ (c = wrapLow N x ∨ c = x ∨ c = wrapHigh N x)) with h2 | h2 <;>
  · rw [h1.1, h2.1] at hp
    simp only [Nat.one_mul, Nat.zero_mul, Nat.add_zero] at hp
    omega

/-- A vertical blinker centred at `(x, y)` turns into the horizontal one. -/
theorem nextCell_blinker_col (N : Nat) (b : Nat → Nat → Bool) (x y : Nat)
    (hN : 5 ≤ N) (hx : x < N) (hy : y < N)
    (hb : ∀ r < N, ∀ c < N,
      (b r c = true ↔ (c = x ∧ (r = wrapLow N y ∨ r = y ∨ r = wrapHigh N y))))
    (r c : Nat) (hr : r < N) (hc : c < N) :
    nextCell N b r c = true ↔ (r = y ∧ (c = wrapLow N x ∨ c = x ∨ c = wrapHigh N x)) := by
  have hp := liveAround_product N b
    (fun r => decide (r = wrapLow N y ∨ r = y ∨ r = wrapHigh N y))
    (fun c => decide (c = x)) c r hc hr
    (by intro r hr c hc; rw [Bool.eq_iff_iff, hb r hr c hc]; simp; tauto)
  simp only [around_point N c x (by omega) hc hx, ← Bool.decide_and] at hp
  have ht := around_triple N r y hN hr hy _ rfl
  rw [nextCell_iff, hb r hr c hc]
  generalize liveAround b c r (wrapLow N c) (wrapHigh N c) (wrapLow N r) (wrapHigh N r) = L at hp ⊢
  revert hp ht
  generalize (decide (wrapLow N r = wrapLow N y ∨ wrapLow N r = y ∨
      wrapLow N r = wrapHigh N y)).toNat +
    (decide (r = wrapLow N y ∨ r = y ∨ r = wrapHigh N y)).toNat +
    (decide (wrapHigh N r = wrapLow N y ∨ wrapHigh N r = y ∨
      wrapHigh N r = wrapHigh N y)).toNat = TT
  intro ht hp
  rcases toNat_decide_cases (c = wrapLow N x ∨ c = x ∨ c = wrapHigh N x) with h1 | h1 <;>
  rcases toNat_decide_cases
    ((r = wrapLow N y ∨ r = y ∨ r = wrapHigh N y) ∧ c = x) with h2 | h2 <;>
  · rw [h1.1, h2.1] at hp
    simp only [Nat.mul_one, Nat.mul_zero, Nat.add_zero] at hp
    omega
/-- C8: blinker oscillator.  On a grid of dimension `N >= 5`, for every centre
cell `(x, y)`, the board whose only live cells are `((x - 1) mod N, y)`,
`(x, y)`, `((x + 1) mod N, y)` becomes after one `Step` the board whose only
live cells are `(x, (y - 1) mod N)`, `(x, y)`, `(x, (y + 1) mod N)`, and after
two `Step`s is equal to the original board. -/
theorem blinker_period_two (N : Nat) (s : State) (x y : Nat)
    (hN : 5 ≤ N) (hx : x < N) (hy : y < N)
    (hb : ∀ r < N, ∀ c < N,
      (s.cellBoard r c = true ↔ (r = y ∧ (c = torus N x (-1) ∨ c = x ∨ c = torus N x 1)))) :
    (∀ r < N, ∀ c < N,
        ((Step N s).cellBoard r c = true ↔
          (c = x ∧ (r = torus N y (-1) ∨ r = y ∨ r = torus N y 1)))) ∧
      (∀ r < N, ∀ c < N, (steps N 2 s).cellBoard r c = s.cellBoard r c) := by
  rw [torus_neg_one N x hx, torus_one N x hx] at hb
  rw [torus_neg_one N y hy, torus_one N y hy]
  have h1 : ∀ r < N, ∀ c < N,
      ((Step N s).cellBoard r c = true ↔
        (c = x ∧ (r = wrapLow N y ∨ r = y ∨ r = wrapHigh N y))) := by
    intro r hr c hc
    rw [Step_cellBoard N s r c hr hc]
    exact nextCell_blinker_row N s.cellBoard x y hN hx hy hb r c hr hc
  refine ⟨h1, ?_⟩
  intro r hr c hc
  show (Step N (Step N s)).cellBoard r c = s.cellBoard r c
  rw [Bool.eq_iff_iff, Step_cellBoard N (Step N s) r c hr hc, hb r hr c hc]
  exact nextCell_blinker_col N (Step N s).cellBoard x y hN hx hy h1 r c hr hc

set_option maxRecDepth 100000 in
theorem blinker_period_two_witness :
    (∀ r < 5, ∀ c < 5,
        (blinkerState.cellBoard r c = true ↔
          (r = 2 ∧ (c = torus 5 2 (-1) ∨ c = 2 ∨ c = torus 5 2 1)))) ∧
      (∀ r < 5, ∀ c < 5,
        ((Step 5 blinkerState).cellBoard r c = true ↔
          (c = 2 ∧ (r = torus 5 2 (-1) ∨ r = 2 ∨ r = torus 5 2 1)))) ∧
      (∀ r < 5, ∀ c < 5, (steps 5 2 blinkerState).cellBoard r c = blinkerState.cellBoard r c) :=
  ⟨by decide, blinker_period_two 5 blinkerState 2 2 (by decide) (by decide) (by decide) (by decide)⟩

/-! ## The block -/

/-- A block with corner `(x, y)` is reproduced by the rule. -/
theorem nextCell_block (N : Nat) (b : Nat → Nat → Bool) (x y : Nat)
    (hN : 4 ≤ N) (hx : x < N) (hy : y < N)
    (hb : ∀ r < N, ∀ c < N,
      (b r c = true ↔ ((r = y ∨ r = wrapHigh N y) ∧ (c = x ∨ c = wrapHigh N x))))
    (r c : Nat) (hr : r < N) (hc : c < N) :
    nextCell N b r c = true ↔ ((r = y ∨ r = wrapHigh N y) ∧ (c = x ∨ c = wrapHigh N x)) := by
  have hp := liveAround_product N b (fun r => decide (r = y ∨ r = wrapHigh N y))
    (fun c => decide (c = x ∨ c = wrapHigh N x)) c r hc hr
    (by intro r hr c hc; rw [Bool.eq_iff_iff, hb r hr c hc]; simp)
  simp only [← Bool.decide_and] at hp
  have htr := around_pair N r y hN hr hy _ rfl
  have htc := around_pair N c x hN hc hx _ rfl
  rw [nextCell_iff, hb r hr c hc]
  generalize liveAround b c r (wrapLow N c) (wrapHigh N c) (wrapLow N r) (wrapHigh N r) = L at hp ⊢
  revert hp htr htc
  generalize (decide (wrapLow N r = y ∨ wrapLow N r = wrapHigh N y)).toNat +
    (decide (r = y ∨ r = wrapHigh N y)).toNat +
    (decide (wrapHigh N r = y ∨ wrapHigh N r = wrapHigh N y)).toNat = TR
  generalize (decide (wrapLow N c = x ∨ wrapLow N c = wrapHigh N x)).toNat +
    (decide (c = x ∨ c = wrapHigh N x)).toNat +
    (decide (wrapHigh N c = x ∨ wrapHigh N c = wrapHigh N x)).toNat = TC
  intro htr htc hp
  rcases toNat_decide_cases
    ((r = y ∨ r = wrapHigh N y) ∧ (c = x ∨ c = wrapHigh N x)) with h2 | h2
  · have e1 := htr.1 h2.2.1
    have e2 := htc.1 h2.2.2
    rw [h2.1, e1, e2] at hp
    omega
  · rw [h2.1] at hp
    by_cases h3 : r = y ∨ r = wrapHigh N y
    · have e1 := htr.1 h3
      have e2 := htc.2 (fun h4 => h2.2 ⟨h3, h4⟩)
      rw [e1] at hp
      omega
    · have e1 := htr.2 h3
      by_cases h4 : c = x ∨ c = wrapHigh N x
      · have e2 := htc.1 h4
        rw [e2] at hp
        omega
      · have e2 := htc.2 h4
        have e3 : TR * TC ≤ 1 * 1 := Nat.mul_le_mul e1 e2
        omega

theorem countP_range_pair (a b n : Nat) (hab : a ≠ b) :
    (List.range n).countP (fun i => decide (i = a ∨ i = b)) =
      (if a < n then 1 else 0) + (if b < n then 1 else 0) := by
  induction n with
  | zero => simp
  | succ n ih =>
    rw [List.range_succ, List.countP_append, ih]
    simp only [List.countP_cons, List.countP_nil, decide_eq_true_eq]
    split_ifs <;> omega

theorem rowLive_product (R C : Nat → Bool) (r n : Nat) :
    rowLive (fun r c => R r && C c) r n = (R r).toNat * (List.range n).countP C := by
  unfold rowLive
  cases h : R r <;> simp [h]

theorem liveRows_product (N : Nat) (R C : Nat → Bool) (y : Nat) :
    liveRows N (fun r c => R r && C c) y =
      (List.range y).countP R * (List.range N).countP C := by
  induction y with
  | zero => simp [liveRows_zero]
  | succ y ih =>
    rw [liveRows_succ, ih, rowLive_product, List.range_succ, List.countP_append, Nat.add_mul]
    cases h : R y <;> simp [h]

theorem liveCount_product (N : Nat) (b : Nat → Nat → Bool) (R C : Nat → Bool)
    (hb : ∀ r < N, ∀ c < N, b r c = (R r && C c)) :
    liveCount N b = (List.range N).countP R * (List.range N).countP C := by
  rw [liveCount_congr N b (fun r c => R r && C c) hb]
  exact liveRows_product N R C N

theorem liveCount_block (N : Nat) (b : Nat → Nat → Bool) (x y : Nat)
    (hN : 4 ≤ N) (hx : x < N) (hy : y < N)
    (hb : ∀ r < N, ∀ c < N,
      (b r c = true ↔ ((r = y ∨ r = wrapHigh N y) ∧ (c = x ∨ c = wrapHigh N x)))) :
    liveCount N b = 4 := by
  rw [liveCount_product N b (fun r => decide (r = y ∨ r = wrapHigh N y))
    (fun c => decide (c = x ∨ c = wrapHigh N x))
    (by intro r hr c hc; rw [Bool.eq_iff_iff, hb r hr c hc]; simp)]
  rw [countP_range_pair y (wrapHigh N y) N (wrapHigh_ne_self N y (by omega)).symm,
    countP_range_pair x (wrapHigh N x) N (wrapHigh_ne_self N x (by omega)).symm]
  have h1 := wrapHigh_lt N x hx
  have h2 := wrapHigh_lt N y hy
  simp [hx, hy, h1, h2]

theorem Step_block (N : Nat) (s : State) (x y : Nat)
    (hN : 4 ≤ N) (hx : x < N) (hy : y < N)
    (hb : ∀ r < N, ∀ c < N,
      (s.cellBoard r c = true ↔ ((r = y ∨ r = wrapHigh N y) ∧ (c = x ∨ c = wrapHigh N x)))) :
    (∀ r < N, ∀ c < N, (Step N s).cellBoard r c = s.cellBoard r c) ∧
      (Step N s).nLiving = 4 := by
  have h1 : ∀ r < N, ∀ c < N, (Step N s).cellBoard r c = s.cellBoard r c := by
    intro r hr c hc
    rw [Bool.eq_iff_iff, Step_cellBoard N s r c hr hc, hb r hr c hc]
    exact nextCell_block N s.cellBoard x y hN hx hy hb r c hr hc
  refine ⟨h1, ?_⟩
  rw [Step_nLiving, liveCount_congr N _ _ h1, liveCount_block N s.cellBoard x y hN hx hy hb]
  rfl

theorem steps_block (N : Nat) (s : State) (x y : Nat) (k : Nat)
    (hN : 4 ≤ N) (hx : x < N) (hy : y < N)
    (hb : ∀ r < N, ∀ c < N,
      (s.cellBoard r c = true ↔ ((r = y ∨ r = wrapHigh N y) ∧ (c = x ∨ c = wrapHigh N x)))) :
    ∀ r < N, ∀ c < N, (steps N k s).cellBoard r c = s.cellBoard r c := by
  induction k with
  | zero => intro r _ c _; rfl
  | succ k ih =>
    intro r hr c hc
    have hk : ∀ r < N, ∀ c < N, ((steps N k s).cellBoard r c = true ↔
        ((r = y ∨ r = wrapHigh N y) ∧ (c = x ∨ c = wrapHigh N x))) := by
      intro r hr c hc
      rw [ih r hr c hc]
      exact hb r hr c hc
    show (Step N (steps N k s)).cellBoard r c = s.cellBoard r c
    rw [(Step_block N (steps N k s) x y hN hx hy hk).1 r hr c hc]
    exact ih r hr c hc

/-- C9: block still life.  On a grid of dimension `N >= 4`, for every position
`(x, y)`, the board whose only live cells are `(x, y)`, `((x + 1) mod N, y)`,
`(x, (y + 1) mod N)`, `((x + 1) mod N, (y + 1) mod N)` is unchanged by `Step`,
hence unchanged after any number `k` of `Step`s, and `nLiving = 4` after each
`Step`. -/
theorem block_still_life (N : Nat) (s : State) (x y : Nat) (k : Nat)
    (hN : 4 ≤ N) (hx : x < N) (hy : y < N)
    (hb : ∀ r < N, ∀ c < N,
      (s.cellBoard r c = true ↔ ((r = y ∨ r = torus N y 1) ∧ (c = x ∨ c = torus N x 1)))) :
    (∀ r < N, ∀ c < N, (Step N s).cellBoard r c = s.cellBoard r c) ∧
      (∀ r < N, ∀ c < N, (steps N k s).cellBoard r c = s.cellBoard r c) ∧
      (steps N (k + 1) s).nLiving = 4 := by
  rw [torus_one N x hx, torus_one N y hy] at hb
  refine ⟨(Step_block N s x y hN hx hy hb).1, steps_block N s x y k hN hx hy hb, ?_⟩
  have hk : ∀ r < N, ∀ c < N, ((steps N k s).cellBoard r c = true ↔
      ((r = y ∨ r = wrapHigh N y) ∧ (c = x ∨ c = wrapHigh N x))) := by
    intro r hr c hc
    rw [steps_block N s x y k hN hx hy hb r hr c hc]
    exact hb r hr c hc
  exact (Step_block N (steps N k s) x y hN hx hy hk).2

set_option maxRecDepth 100000 in
theorem block_still_life_witness :
    (∀ r < 4, ∀ c < 4,
        (blockState.cellBoard r c = true ↔
          ((r = 3 ∨ r = torus 4 3 1) ∧ (c = 3 ∨ c = torus 4 3 1)))) ∧
      (∀ r < 4, ∀ c < 4, (Step 4 blockState).cellBoard r c = blockState.cellBoard r c) ∧
      (∀ r < 4, ∀ c < 4, (steps 4 2 blockState).cellBoard r c = blockState.cellBoard r c) ∧
      (steps 4 (2 + 1) blockState).nLiving = 4 :=
  ⟨by decide,
    block_still_life 4 blockState 3 3 2 (by decide) (by decide) (by decide) (by decide)⟩

/-! ## The lone cell -/

/-- On a board of dimension at least 3 with a single live cell, no cell has
more than one live neighbour, and the live cell has none. -/
theorem liveAround_single_le (N : Nat) (b : Nat → Nat → Bool) (cx cy x y : Nat)
    (hN : 3 ≤ N) (hx : x < N) (hy : y < N) (hcx : cx < N) (hcy : cy < N)
    (hb : ∀ r < N, ∀ c < N, (b r c = true ↔ (r = cy ∧ c = cx))) :
    liveAround b x y (wrapLow N x) (wrapHigh N x) (wrapLow N y) (wrapHigh N y) ≤ 1 ∧
      (y = cy ∧ x = cx →
        liveAround b x y (wrapLow N x) (wrapHigh N x) (wrapLow N y) (wrapHigh N y) = 0) := by
  have h := liveAround_single N b cx cy x y hx hy hb
  rw [around_point N y cy hN hy hcy, around_point N x cx hN hx hcx, ← Bool.decide_and] at h
  generalize liveAround b x y (wrapLow N x) (wrapHigh N x) (wrapLow N y) (wrapHigh N y) = L at h ⊢
  rcases toNat_decide_cases (y = wrapLow N cy ∨ y = cy ∨ y = wrapHigh N cy) with h1 | h1 <;>
  rcases toNat_decide_cases (x = wrapLow N cx ∨ x = cx ∨ x = wrapHigh N cx) with h2 | h2 <;>
  rcases toNat_decide_cases (y = cy ∧ x = cx) with h3 | h3 <;>
  · rw [h1.1, h2.1, h3.1] at h
    omega

/-- C10: lone cell.  On an `N x N` grid with `N >= 3` whose only live cell is
`(0, 0)`, `toroidTick` computes the neighbour count 0 for `(0, 0)` and a count
different from 3 for every other cell, so after one `Step` every cell of
`cellBoard` is dead and `nLiving = 0`. -/
theorem lone_cell_dies (N : Nat) (s : State) (hN : 3 ≤ N)
    (hb : ∀ r < N, ∀ c < N, (s.cellBoard r c = true ↔ (r = 0 ∧ c = 0))) :
    cellNeighbors N 0 (wrapLow N 0) (wrapHigh N 0) 0 (tickEntry N s 0 0) = 0 ∧
      (∀ y < N, ∀ x < N, (x, y) ≠ (0, 0) →
        cellNeighbors N y (wrapLow N y) (wrapHigh N y) x (tickEntry N s y x) ≠ 3) ∧
      (∀ r < N, ∀ c < N, (Step N s).cellBoard r c = false) ∧
      (Step N s).nLiving = 0 := by
  have h0 : 0 < N := by omega
  have hle := fun x y hx hy =>
    liveAround_single_le N s.cellBoard 0 0 x y hN hx hy h0 h0 hb
  have hdead : ∀ r < N, ∀ c < N, (Step N s).cellBoard r c = false := by
    intro r hr c hc
    rw [Step_cellBoard N s r c hr hc, Bool.eq_false_iff]
    intro hn
    rw [nextCell_iff, hb r hr c hc] at hn
    have h1 := hle c r hc hr
    omega
  refine ⟨?_, ?_, hdead, ?_⟩
  · rw [cellNeighbors_tickEntry, (hle 0 0 h0 h0).2 ⟨rfl, rfl⟩]
    rfl
  · intro y hy x hx _
    rw [cellNeighbors_tickEntry]
    have h1 := (hle x y hx hy).1
    omega
  · rw [Step_nLiving, liveCount_dead N _ hdead]
    rfl

set_option maxRecDepth 100000 in
theorem lone_cell_dies_witness :
    (∀ r < 3, ∀ c < 3, (loneState.cellBoard r c = true ↔ (r = 0 ∧ c = 0))) ∧
      cellNeighbors 3 0 (wrapLow 3 0) (wrapHigh 3 0) 0 (tickEntry 3 loneState 0 0) = 0 ∧
      (∀ r < 3, ∀ c < 3, (Step 3 loneState).cellBoard r c = false) ∧
      (Step 3 loneState).nLiving = 0 :=
  ⟨by decide, (lone_cell_dies 3 loneState (by decide) (by decide)).1,
    (lone_cell_dies 3 loneState (by decide) (by decide)).2.2⟩

/-! ## Frame properties of `toroidTick`, `update` and `gameMain` -/

theorem liveAround_congr (N : Nat) (b b' : Nat → Nat → Bool) (x y : Nat)
    (hx : x < N) (hy : y < N) (h : ∀ r < N, ∀ c < N, b r c = b' r c) :
    liveAround b x y (wrapLow N x) (wrapHigh N x) (wrapLow N y) (wrapHigh N y) =
      liveAround b' x y (wrapLow N x) (wrapHigh N x) (wrapLow N y) (wrapHigh N y) := by
  have hxl := wrapLow_lt N x hx
  have hxh := wrapHigh_lt N x hx
  have hyl := wrapLow_lt N y hy
  have hyh := wrapHigh_lt N y hy
  simp only [liveAround, h _ hyh _ hxl, h _ hyh _ hx, h _ hyh _ hxh, h _ hy _ hxl,
    h _ hy _ hxh, h _ hyl _ hxl, h _ hyl _ hx, h _ hyl _ hxh]

theorem nextCell_congr (N : Nat) (b b' : Nat → Nat → Bool) (r c : Nat)
    (hr : r < N) (hc : c < N) (h : ∀ r < N, ∀ c < N, b r c = b' r c) :
    nextCell N b r c = nextCell N b' r c := by
  rw [Bool.eq_iff_iff, nextCell_iff, nextCell_iff, liveAround_congr N b b' c r hc hr h,
    h r hr c hc]

theorem Step_cellBuffer (N : Nat) (s : State) (r c : Nat) (hr : r < N) (hc : c < N) :
    (Step N s).cellBuffer r c = nextCell N s.cellBoard r c := by
  rw [Step_eq]
  simp [hr, hc]

theorem steps_congr (N : Nat) (s t : State) (k : Nat)
    (h : ∀ r < N, ∀ c < N, s.cellBoard r c = t.cellBoard r c) :
    ∀ r < N, ∀ c < N, (steps N k s).cellBoard r c = (steps N k t).cellBoard r c := by
  induction k with
  | zero => exact h
  | succ k ih =>
    intro r hr c hc
    show (Step N (steps N k s)).cellBoard r c = (Step N (steps N k t)).cellBoard r c
    rw [Step_cellBoard N _ r c hr hc, Step_cellBoard N _ r c hr hc]
    exact nextCell_congr N _ _ r c hr hc ih

/-- C11: `Step` is a function of the current grid only.  For any two states
that agree on the cells of `cellBoard` (and differ arbitrarily in `cellBuffer`,
`nLiving`, `generation` and `Paused`), `Step` yields the same `cellBoard`, the
same `cellBuffer` and the same `nLiving`; so the boards are equal after any
equal number `k` of `Step`s. -/
theorem Step_depends_on_cellBoard_only (N : Nat) (s t : State) (k : Nat)
    (h : ∀ r < N, ∀ c < N, s.cellBoard r c = t.cellBoard r c) :
    (∀ r < N, ∀ c < N, (Step N s).cellBoard r c = (Step N t).cellBoard r c) ∧
      (∀ r < N, ∀ c < N, (Step N s).cellBuffer r c = (Step N t).cellBuffer r c) ∧
      (Step N s).nLiving = (Step N t).nLiving ∧
      (∀ r < N, ∀ c < N, (steps N k s).cellBoard r c = (steps N k t).cellBoard r c) := by
  have h1 : ∀ r < N, ∀ c < N, (Step N s).cellBoard r c = (Step N t).cellBoard r c :=
    steps_congr N s t 1 h
  refine ⟨h1, ?_, ?_, steps_congr N s t k h⟩
  · intro r hr c hc
    rw [Step_cellBuffer N s r c hr hc, Step_cellBuffer N t r c hr hc]
    exact nextCell_congr N _ _ r c hr hc h
  · rw [Step_nLiving, Step_nLiving, liveCount_congr N _ _ h1]

set_option maxRecDepth 100000 in
theorem Step_depends_on_cellBoard_only_witness :
    (∀ r < 5, ∀ c < 5, blinkerState.cellBoard r c = blinkerStateB.cellBoard r c) ∧
      blinkerState.nLiving ≠ blinkerStateB.nLiving ∧
      (Step 5 blinkerState).nLiving = (Step 5 blinkerStateB).nLiving ∧
      (∀ r < 5, ∀ c < 5,
        (steps 5 3 blinkerState).cellBoard r c = (steps 5 3 blinkerStateB).cellBoard r c) :=
  ⟨by decide, by decide,
    (Step_depends_on_cellBoard_only 5 blinkerState blinkerStateB 3 (by decide)).2.2⟩

/-- C14: commit.  For every state, after `update` every cell of `cellBoard`
equals the corresponding cell of `cellBuffer` (no cell skipped), and
`cellBuffer`, `nLiving`, `generation` and `Paused` are unchanged. -/
theorem update_commits_cellBuffer (N : Nat) (s : State) :
    (∀ y < N, ∀ x < N, (update N s).cellBoard y x = s.cellBuffer y x) ∧
      (update N s).cellBuffer = s.cellBuffer ∧
      (update N s).nLiving = s.nLiving ∧
      (update N s).generation = s.generation ∧
      (update N s).Paused = s.Paused := by
  rw [update_eq]
  refine ⟨?_, rfl, rfl, rfl, rfl⟩
  intro y hy x hx
  simp [hy, hx]

/-- C15: double buffering.  `toroidTick` never writes the current grid:
`cellBoard` after the tick equals `cellBoard` before it, and so does the
`cellBoard` that every cell body of the tick reads; every cell of `cellBuffer`
is overwritten with the value `determineState` returns for the neighbour count
taken on the prior board, whatever the buffer held. -/
theorem toroidTick_reads_prior_board (N : Nat) (s : State) :
    (toroidTick N s).cellBoard = s.cellBoard ∧
      (∀ y x, (tickEntry N s y x).1.cellBoard = s.cellBoard) ∧
      (∀ y < N, ∀ x < N,
        (toroidTick N s).cellBuffer y x =
          determineState s.cellBoard
            (countNeighbors s.cellBoard 0 x y (wrapLow N x) (wrapHigh N x)
              (wrapLow N y) (wrapHigh N y)) x y) := by
  refine ⟨?_, ?_, ?_⟩
  · rw [toroidTick_eq]
  · intro y x
    rw [tickEntry_eq]
  · intro y hy x hx
    rw [toroidTick_eq]
    simp [hy, hx, nextCell]

/-- C16: pause gating.  One driver tick with `Paused` set leaves the whole
state (`cellBoard`, `cellBuffer`, `nLiving`, `generation`) unchanged; with
`Paused` clear it has exactly the effect of `toroidTick` followed by `update`;
in both cases `Paused` itself is unchanged. -/
theorem gameMain_pause_gating (N : Nat) (s : State) :
    (s.Paused = true → gameMain N s = s) ∧
      (s.Paused = false → gameMain N s = update N (toroidTick N s)) ∧
      (gameMain N s).Paused = s.Paused := by
  refine ⟨?_, ?_, ?_⟩
  · intro h
    simp [gameMain, h]
  · intro h
    simp [gameMain, h]
  · unfold gameMain
    split
    · rw [update_eq, toroidTick_eq]
    · rfl

theorem gameMain_pause_gating_witness :
    gameMain 5 blinkerStateB = blinkerStateB ∧
      gameMain 5 blinkerState = update 5 (toroidTick 5 blinkerState) :=
  ⟨(gameMain_pause_gating 5 blinkerStateB).1 rfl, (gameMain_pause_gating 5 blinkerState).2.1 rfl⟩

/-! ## `seed` -/

theorem seedCell_loop (rnd : Nat → Nat) (n m : Nat) (s : State) (k : Nat) :
    forLoop (seedCell rnd n) m (s, k) =
      ({ s with cellBoard := fun r c =>
          if r = n ∧ c < m then decide (rnd (k + c) % 3 = 0) else s.cellBoard r c }, k + m) := by
  induction m with
  | zero => simp [forLoop]
  | succ m ih =>
    rw [forLoop_succ, ih]
    simp only [seedCell, Prod.mk.injEq]
    refine ⟨?_, by omega⟩
    have hst : ∀ v : Bool, v = decide (rnd (k + m) % 3 = 0) →
        store (fun r c => if r = n ∧ c < m then decide (rnd (k + c) % 3 = 0)
          else s.cellBoard r c) n m v =
        fun r c => if r = n ∧ c < m + 1 then decide (rnd (k + c) % 3 = 0)
          else s.cellBoard r c := by
      intro v hv
      funext r c
      simp only [store]
      by_cases h1 : r = n ∧ c = m
      · obtain ⟨rfl, rfl⟩ := h1
        simp [hv]
      · by_cases h2 : r = n ∧ c < m
        · have h3 : r = n ∧ c < m + 1 := ⟨h2.1, by omega⟩
          have h4 : c ≠ m := by omega
          simp [h2, h3, h4]
        · have h3 : ¬ (r = n ∧ c < m + 1) := by
            rintro ⟨h4, h5⟩
            rcases Nat.lt_succ_iff_lt_or_eq.mp h5 with h6 | h6
            · exact h2 ⟨h4, h6⟩
            · exact h1 ⟨h4, h6⟩
          simp [h1, h2, h3]
    by_cases h0 : rnd (k + m) % 3 = 0
    · simp only [h0, beq_self_eq_true, if_true]
      rw [hst true (by simp [h0])]
    · have h0' : (rnd (k + m) % 3 == 0) = false := by simp [h0]
      simp only [h0', Bool.false_eq_true, if_false]
      rw [hst false (by simp [h0])]

/-- Closed form of `seedFrom`. -/
theorem seedFrom_eq (N : Nat) (rnd : Nat → Nat) (s : State) :
    seedFrom N rnd s =
      { s with cellBoard := fun r c =>
          if r < N ∧ c < N then decide (rnd (r * N + c) % 3 = 0) else s.cellBoard r c } := by
  unfold seedFrom
  suffices h : ∀ n, forLoop (fun n st => forLoop (seedCell rnd n) N st) n (s, 0) =
      ({ s with cellBoard := fun r c =>
          if r < n ∧ c < N then decide (rnd (r * N + c) % 3 = 0) else s.cellBoard r c },
        n * N) by rw [h N]
  intro n
  induction n with
  | zero => simp [forLoop]
  | succ n ih =>
    rw [forLoop_succ, ih, seedCell_loop]
    simp only [Prod.mk.injEq]
    refine ⟨?_, by rw [Nat.succ_mul]⟩
    apply State.ext'
    · rfl
    · funext r c
      simp only
      by_cases h1 : r = n ∧ c < N
      · have h3 : r < n + 1 ∧ c < N := ⟨by omega, h1.2⟩
        obtain ⟨rfl, _⟩ := h1
        simp [h3]
      · by_cases h2 : r < n ∧ c < N
        · have h3 : r < n + 1 ∧ c < N := ⟨by omega, h2.2⟩
          have h4 : r ≠ n := by omega
          simp [h2, h3, h4]
        · have h3 : ¬ (r < n + 1 ∧ c < N) := by
            rintro ⟨h4, h5⟩
            rcases Nat.lt_succ_iff_lt_or_eq.mp h4 with h6 | h6
            · exact h2 ⟨h6, h5⟩
            · exact h1 ⟨h6, h5⟩
          simp [h1, h2, h3]
    · rfl
    · rfl
    · rfl

theorem seedFrom_cellBoard (N : Nat) (rnd : Nat → Nat) (s : State) (n m : Nat)
    (hn : n < N) (hm : m < N) :
    (seedFrom N rnd s).cellBoard n m = decide (rnd (n * N + m) % 3 = 0) := by
  rw [seedFrom_eq]
  simp [hn, hm]

/-- C13: `seed` fills every cell from the random stream.  With `rand()`
returning `rnd 0, rnd 1, ...`, after the loops of `seed` every cell
`cellBoard[n][m]` is alive iff `rnd (n * N + m) mod 3 = 0` (one draw per cell,
in row-major order) and dead otherwise, whatever the board held before; the
same holds for `seed` with the stream that follows `srand(time(NULL))`. -/
theorem seed_fills_from_stream (N : Nat) (rnd : Nat → Nat) (randStream : Nat → Nat → Nat)
    (now : Nat) (s : State) :
    (∀ n < N, ∀ m < N,
        ((seedFrom N rnd s).cellBoard n m = true ↔ rnd (n * N + m) % 3 = 0) ∧
        ((seedFrom N rnd s).cellBoard n m = false ↔ rnd (n * N + m) % 3 ≠ 0)) ∧
      (∀ n < N, ∀ m < N,
        ((seed N randStream now s).cellBoard n m = true ↔
          randStream now (n * N + m) % 3 = 0)) := by
  refine ⟨?_, ?_⟩
  · intro n hn m hm
    rw [seedFrom_cellBoard N rnd s n m hn hm]
    simp
  · intro n hn m hm
    unfold seed
    rw [seedFrom_cellBoard N _ s n m hn hm]
    simp

theorem seed_fills_from_stream_witness :
    ((seedFrom 2 (sampleRand 0) blinkerStateB).cellBoard 1 1 = true ↔
        sampleRand 0 (1 * 2 + 1) % 3 = 0) ∧
      (seedFrom 2 (sampleRand 0) blinkerStateB).cellBoard 1 1 = true ∧
      (seedFrom 2 (sampleRand 0) blinkerStateB).cellBoard 0 1 = false :=
  ⟨((seed_fills_from_stream 2 (sampleRand 0) sampleRand 0 blinkerStateB).1
      1 (by decide) 1 (by decide)).1, by decide, by decide⟩

theorem seed_cellBoard (N : Nat) (randStream : Nat → Nat → Nat) (now : Nat) (s : State)
    (n m : Nat) (hn : n < N) (hm : m < N) :
    (seed N randStream now s).cellBoard n m = decide (randStream now (n * N + m) % 3 = 0) := by
  unfold seed
  exact seedFrom_cellBoard N _ s n m hn hm

theorem seed_cellBoard_congr (N : Nat) (randStream : Nat → Nat → Nat) (now : Nat)
    (s t : State) :
    ∀ r < N, ∀ c < N,
      (seed N randStream now s).cellBoard r c = (seed N randStream now t).cellBoard r c := by
  intro r hr c hc
  rw [seed_cellBoard N _ _ s r c hr hc, seed_cellBoard N _ _ t r c hr hc]

/-- C12, as the code has it: `seed` takes no seed argument, it seeds the
generator with `time(NULL)`.  Two runs of `seed` in which `time(NULL)` returns
the same value (with the same library generator) produce identical `cellBoard`
grids, whatever the two prior states were, and the grids remain identical
after any equal number `k` of `Step`s. -/
theorem seed_determined_by_clock (N : Nat) (randStream : Nat → Nat → Nat) (now : Nat)
    (s t : State) (k : Nat) :
    (∀ r < N, ∀ c < N,
        (seed N randStream now s).cellBoard r c = (seed N randStream now t).cellBoard r c) ∧
      (∀ r < N, ∀ c < N,
        (steps N k (seed N randStream now s)).cellBoard r c =
          (steps N k (seed N randStream now t)).cellBoard r c) :=
  ⟨seed_cellBoard_congr N randStream now s t,
    steps_congr N _ _ k (seed_cellBoard_congr N randStream now s t)⟩

/-- C12, as the specification states it, fails: the caller of `seed` supplies
nothing, and two runs from the same state with the same library generator give
different grids when the clock differs (here the cell `(0, 0)` of the board of
dimension `boardSize`, with the clock at 0 and at 1). -/
theorem seed_depends_on_clock :
    (seed boardSize sampleRand 0 initState).cellBoard 0 0 = true ∧
      (seed boardSize sampleRand 1 initState).cellBoard 0 0 = false := by
  have h : (0 : Nat) < boardSize := by decide
  have h0 : decide (sampleRand 0 (0 * boardSize + 0) % 3 = 0) = true := by simp [sampleRand]
  have h1 : decide (sampleRand 1 (0 * boardSize + 0) % 3 = 0) = false := by simp [sampleRand]
  exact ⟨(seed_cellBoard boardSize sampleRand 0 initState 0 0 h h).trans h0,
    (seed_cellBoard boardSize sampleRand 1 initState 0 0 h h).trans h1⟩

/-- C19: `seed` writes only the current grid.  It leaves `generation`,
`nLiving`, `cellBuffer` and `Paused` unchanged, so in the state reached by
seeding the initial globals `generation = 0` and `nLiving = 0`, whatever the
seeded board contains; `nLiving` equals the number of live cells of the board
after the first `Step` (the dimension being such that `N * N` fits the
counter). -/
theorem seed_writes_cellBoard_only (N : Nat) (randStream : Nat → Nat → Nat) (now : Nat)
    (s : State) :
    (seed N randStream now s).generation = s.generation ∧
      (seed N randStream now s).nLiving = s.nLiving ∧
      (seed N randStream now s).cellBuffer = s.cellBuffer ∧
      (seed N randStream now s).Paused = s.Paused ∧
      (seed N randStream now initState).generation = 0 ∧
      (seed N randStream now initState).nLiving = 0 ∧
      (N * N < 2 ^ 64 →
        (Step N (seed N randStream now initState)).nLiving =
          liveCount N (Step N (seed N randStream now initState)).cellBoard) := by
  have h := fun u => seedFrom_eq N (randStream now) u
  unfold seed
  refine ⟨by rw [h], by rw [h], by rw [h], by rw [h], ?_, ?_,
    fun hN => Step_nLiving_eq N _ hN⟩
  · rw [h]; rfl
  · rw [h]; rfl

set_option maxRecDepth 100000 in
theorem seed_writes_cellBoard_only_witness :
    liveCount 3 (seed 3 sampleRand 1 initState).cellBoard = 3 ∧
      (seed 3 sampleRand 1 initState).nLiving = 0 ∧
      (seed 3 sampleRand 1 initState).generation = 0 ∧
      (Step 3 (seed 3 sampleRand 1 initState)).nLiving =
        liveCount 3 (Step 3 (seed 3 sampleRand 1 initState)).cellBoard :=
  ⟨by decide, (seed_writes_cellBoard_only 3 sampleRand 1 initState).2.2.2.2.2.1,
    (seed_writes_cellBoard_only 3 sampleRand 1 initState).2.2.2.2.1,
    (seed_writes_cellBoard_only 3 sampleRand 1 initState).2.2.2.2.2.2 (by decide)⟩

/-! ## Index safety: the checked embedding never fails -/

theorem loadChecked_cast (N : Nat) (a : Nat → Nat → Bool) (i j : Nat)
    (hi : i < N) (hj : j < N) : loadChecked N a (i : Int) (j : Int) = some (a i j) := by
  have h : 0 ≤ (i : Int) ∧ (i : Int) < (N : Int) ∧ 0 ≤ (j : Int) ∧ (j : Int) < (N : Int) := by
    omega
  simp [loadChecked, h]

theorem storeChecked_cast (N : Nat) (a : Nat → Nat → Bool) (i j : Nat) (v : Bool)
    (hi : i < N) (hj : j < N) :
    storeChecked N a (i : Int) (j : Int) v = some (store a i j v) := by
  have h : 0 ≤ (i : Int) ∧ (i : Int) < (N : Int) ∧ 0 ≤ (j : Int) ∧ (j : Int) < (N : Int) := by
    omega
  simp [storeChecked, h]

theorem tmpLow_cast (N i : Nat) (hi : i < N) : tmpLow N (i : Int) = ((wrapLow N i : Nat) : Int) := by
  rw [wrapLow_eq]
  unfold tmpLow
  by_cases h : i = 0
  · subst h
    simp
    omega
  · have h1 : ¬ ((i : Int) - 1 < 0) := by omega
    simp only [h1, h, if_false]
    omega

theorem tmpHigh_cast (N i : Nat) : tmpHigh N (i : Int) = ((wrapHigh N i : Nat) : Int) := by
  unfold tmpHigh wrapHigh
  by_cases h : i + 1 = N
  · have h1 : (i : Int) + 1 = (N : Int) := by omega
    simp [h, h1]
  · have h1 : ¬ ((i : Int) + 1 = (N : Int)) := by omega
    simp [h, h1]

theorem bumpChecked_eq (N : Nat) (b : Nat → Nat → Bool) (r c : Nat) (n : Int)
    (hr : r < N) (hc : c < N) :
    bumpChecked N b (r : Int) (c : Int) n = some (bump b r c n) := by
  simp [bumpChecked, loadChecked_cast N b r c hr hc, bump]

theorem countNeighborsChecked_eq (N : Nat) (b : Nat → Nat → Bool) (n : Int)
    (x y x0 x1 y0 y1 : Nat) (hx : x < N) (hy : y < N) (hx0 : x0 < N) (hx1 : x1 < N)
    (hy0 : y0 < N) (hy1 : y1 < N) :
    countNeighborsChecked N b n (x : Int) (y : Int) (x0 : Int) (x1 : Int) (y0 : Int) (y1 : Int) =
      some (countNeighbors b n x y x0 x1 y0 y1) := by
  simp only [countNeighborsChecked, countNeighbors, bumpChecked_eq N b _ _ _ hy1 hx0,
    bumpChecked_eq N b _ _ _ hy1 hx, bumpChecked_eq N b _ _ _ hy1 hx1,
    bumpChecked_eq N b _ _ _ hy hx0, bumpChecked_eq N b _ _ _ hy hx1,
    bumpChecked_eq N b _ _ _ hy0 hx0, bumpChecked_eq N b _ _ _ hy0 hx,
    bumpChecked_eq N b _ _ _ hy0 hx1, Option.some_bind]

theorem determineStateChecked_eq (N : Nat) (b : Nat → Nat → Bool) (n : Int) (x y : Nat)
    (hx : x < N) (hy : y < N) :
    determineStateChecked N b n (x : Int) (y : Int) = some (determineState b n x y) := by
  unfold determineStateChecked determineState
  rw [loadChecked_cast N b y x hy hx]
  by_cases h2 : n = 2 <;> by_cases h3 : n = 3 <;> cases hb : b y x <;> simp [h2, h3]

theorem tickCellChecked_eq (N : Nat) (y tmpy0 tmpy1 x : Nat) (st : State × Int)
    (hx : x < N) (hy : y < N) (h0 : tmpy0 < N) (h1 : tmpy1 < N) :
    tickCellChecked N (y : Int) (tmpy0 : Int) (tmpy1 : Int) x st =
      some (tickCell N y tmpy0 tmpy1 x st) := by
  obtain ⟨s, n⟩ := st
  simp only [tickCellChecked, tickCell, cellNeighbors, tmpLow_cast N x hx, tmpHigh_cast N x]
  rw [countNeighborsChecked_eq N s.cellBoard n x y _ _ tmpy0 tmpy1 hx hy
    (wrapLow_lt N x hx) (wrapHigh_lt N x hx) h0 h1]
  simp only [Option.some_bind]
  rw [determineStateChecked_eq N s.cellBoard _ x y hx hy]
  simp only [Option.some_bind]
  rw [storeChecked_cast N s.cellBuffer y x _ hy hx]
  simp only [Option.some_bind]
  rw [loadChecked_cast N _ y x hy hx]
  simp only [Option.some_bind]

theorem forLoopChecked_eq {σ : Type} (body : Nat → σ → Option σ) (body' : Nat → σ → σ)
    (n : Nat) (h : ∀ i < n, ∀ s, body i s = some (body' i s)) (s : σ) :
    forLoopChecked body n s = some (forLoop body' n s) := by
  induction n with
  | zero => rfl
  | succ n ih =>
    rw [forLoopChecked, ih (fun i hi => h i (by omega)), Option.some_bind, h n (by omega)]
    rfl

theorem tickRowChecked_eq (N y : Nat) (hy : y < N) (st : State × Int) :
    tickRowChecked N y st = some (tickRow N y st) := by
  unfold tickRowChecked tickRow
  rw [tmpLow_cast N y hy, tmpHigh_cast N y]
  exact forLoopChecked_eq _ _ N
    (fun x hx st => tickCellChecked_eq N y _ _ x st hx hy (wrapLow_lt N y hy)
      (wrapHigh_lt N y hy)) st

theorem toroidTickChecked_eq (N : Nat) (s : State) :
    toroidTickChecked N s = some (toroidTick N s) := by
  unfold toroidTickChecked toroidTick
  rw [forLoopChecked_eq (tickRowChecked N) (tickRow N) N
    (fun y hy st => tickRowChecked_eq N y hy st)]
  rfl

theorem updateChecked_eq (N : Nat) (s : State) :
    updateChecked N s = some (update N s) := by
  unfold updateChecked update
  apply forLoopChecked_eq
  intro x hx t
  apply forLoopChecked_eq
  intro y hy u
  rw [loadChecked_cast N _ y x hy hx, Option.some_bind, storeChecked_cast N _ y x _ hy hx,
    Option.some_bind]

theorem wrapLow_mod (N i : Nat) (hi : i < N) : wrapLow N i = (i + N - 1) % N := by
  rw [wrapLow_eq]
  by_cases h : i = 0
  · subst h
    simp only [if_true, Nat.zero_add]
    exact (Nat.mod_eq_of_lt (by omega)).symm
  · simp only [h, if_false]
    have h1 : i + N - 1 = (i - 1) + N := by omega
    rw [h1, Nat.add_mod_right, Nat.mod_eq_of_lt (by omega)]

theorem wrapHigh_mod (N i : Nat) (hi : i < N) : wrapHigh N i = (i + 1) % N := by
  unfold wrapHigh
  by_cases h : i + 1 = N
  · simp [h]
  · simp only [h, if_false]
    exact (Nat.mod_eq_of_lt (by omega)).symm

/-- C17: index safety.  For every cell `(x, y)` of a board of dimension
`N >= 1`, the wrap indices are `tmpx[0] = (x + N - 1) mod N`,
`tmpx[1] = (x + 1) mod N`, `tmpy[0] = (y + N - 1) mod N`,
`tmpy[1] = (y + 1) mod N`, all in `[0, N)`; and the embedding of `toroidTick`,
`determineState` and `update` with bounds-checked array accesses never takes
its out-of-bounds branch: it returns the result of the unchecked embedding. -/
theorem index_safety (N : Nat) (s : State) :
    (∀ i < N,
        tmpLow N (i : Int) = (((i + N - 1) % N : Nat) : Int) ∧
        tmpHigh N (i : Int) = (((i + 1) % N : Nat) : Int) ∧
        wrapLow N i = (i + N - 1) % N ∧ wrapHigh N i = (i + 1) % N ∧
        0 ≤ tmpLow N (i : Int) ∧ tmpLow N (i : Int) < (N : Int) ∧
        0 ≤ tmpHigh N (i : Int) ∧ tmpHigh N (i : Int) < (N : Int)) ∧
      toroidTickChecked N s = some (toroidTick N s) ∧
      updateChecked N s = some (update N s) ∧
      (toroidTickChecked N s).bind (updateChecked N) = some (Step N s) ∧
      (∀ neighbors : Int, ∀ x < N, ∀ y < N,
        determineStateChecked N s.cellBoard neighbors (x : Int) (y : Int) =
          some (determineState s.cellBoard neighbors x y)) := by
  refine ⟨?_, toroidTickChecked_eq N s, updateChecked_eq N s, ?_, ?_⟩
  · intro i hi
    have h1 := wrapLow_lt N i hi
    have h2 := wrapHigh_lt N i hi
    rw [tmpLow_cast N i hi, tmpHigh_cast N i, ← wrapLow_mod N i hi, ← wrapHigh_mod N i hi]
    refine ⟨rfl, rfl, rfl, rfl, ?_, ?_, ?_, ?_⟩ <;> omega
  · rw [toroidTickChecked_eq, Option.some_bind, updateChecked_eq]
    rfl
  · intro neighbors x hx y hy
    exact determineStateChecked_eq N s.cellBoard neighbors x y hx hy

theorem index_safety_witness :
    tmpLow 5 ((0 : Nat) : Int) = 4 ∧ tmpHigh 5 ((4 : Nat) : Int) = 0 ∧
      (toroidTickChecked 5 blinkerState).bind (updateChecked 5) = some (Step 5 blinkerState) :=
  ⟨by decide, by decide, (index_safety 5 blinkerState).2.2.2.1⟩

/-! ## Translation equivariance -/

theorem torus_lt (N i : Nat) (d : Int) (hN : 1 ≤ N) : torus N i d < N := by
  unfold torus
  have h1 : (0 : Int) ≤ ((i : Int) + d) % (N : Int) := Int.emod_nonneg _ (by omega)
  have h2 : ((i : Int) + d) % (N : Int) < (N : Int) := Int.emod_lt_of_pos _ (by omega)
  omega

theorem torus_torus (N i : Nat) (d e : Int) (hN : 1 ≤ N) :
    torus N (torus N i d) e = torus N i (d + e) := by
  unfold torus
  have h1 : (0 : Int) ≤ ((i : Int) + d) % (N : Int) := Int.emod_nonneg _ (by omega)
  rw [Int.toNat_of_nonneg h1, Int.emod_add_emod, Int.add_assoc]

theorem nextCell_iff_refCount (N : Nat) (b : Nat → Nat → Bool) (x y : Nat)
    (hx : x < N) (hy : y < N) :
    nextCell N b y x = true ↔ rule (b y x) (refCount N b x y) := by
  rw [nextCell_iff, liveAround_eq_refCount N _ x y hx hy]
  rfl

theorem refCount_shift (N : Nat) (a c : Int) (b : Nat → Nat → Bool) (x y : Nat) (hN : 1 ≤ N) :
    refCount N (shift N a c b) x y = refCount N b (torus N x (-a)) (torus N y (-c)) := by
  unfold refCount shift
  congr 1
  funext d
  rw [torus_torus N y _ _ hN, torus_torus N x _ _ hN, torus_torus N y _ _ hN,
    torus_torus N x _ _ hN, Int.add_comm d.2, Int.add_comm d.1]

theorem nextCell_shift (N : Nat) (a c : Int) (b : Nat → Nat → Bool) (x y : Nat)
    (hx : x < N) (hy : y < N) :
    nextCell N (shift N a c b) y x = shift N a c (nextCell N b) y x := by
  have hN : 1 ≤ N := by omega
  rw [Bool.eq_iff_iff, nextCell_iff_refCount N _ x y hx hy, refCount_shift N a c b x y hN]
  show _ ↔ nextCell N b (torus N y (-c)) (torus N x (-a)) = true
  rw [nextCell_iff_refCount N b _ _ (torus_lt N x _ hN) (torus_lt N y _ hN)]
  rfl

theorem rowLive_eq_sum (b : Nat → Nat → Bool) (y n : Nat) :
    rowLive b y n = ∑ x in Finset.range n, (b y x).toNat := by
  induction n with
  | zero => simp [rowLive_zero]
  | succ n ih =>
    rw [rowLive_succ, Finset.sum_range_succ, ih]
    cases b y n <;> simp

theorem liveCount_eq_sum (N : Nat) (b : Nat → Nat → Bool) :
    liveCount N b = ∑ y in Finset.range N, ∑ x in Finset.range N, (b y x).toNat := by
  rw [liveCount_eq_liveRows]
  suffices h : ∀ n, liveRows N b n =
      ∑ y in Finset.range n, ∑ x in Finset.range N, (b y x).toNat from h N
  intro n
  induction n with
  | zero => simp [liveRows_zero]
  | succ n ih => rw [liveRows_succ, Finset.sum_range_succ, ih, rowLive_eq_sum]

theorem sum_range_torus (N : Nat) (d : Int) (f : Nat → Nat) (hN : 1 ≤ N) :
    ∑ i in Finset.range N, f (torus N i d) = ∑ i in Finset.range N, f i := by
  refine Finset.sum_nbij' (fun i => torus N i d) (fun i => torus N i (-d)) ?_ ?_ ?_ ?_ ?_
  · intro i _
    exact Finset.mem_range.mpr (torus_lt N i d hN)
  · intro i _
    exact Finset.mem_range.mpr (torus_lt N i (-d) hN)
  · intro i hi
    show torus N (torus N i d) (-d) = i
    rw [torus_torus N i _ _ hN, Int.add_right_neg, torus_zero N i (Finset.mem_range.mp hi)]
  · intro i hi
    show torus N (torus N i (-d)) d = i
    rw [torus_torus N i _ _ hN, Int.add_left_neg, torus_zero N i (Finset.mem_range.mp hi)]
  · intro i _
    rfl

theorem liveCount_shift (N : Nat) (a c : Int) (b : Nat → Nat → Bool) (hN : 1 ≤ N) :
    liveCount N (shift N a c b) = liveCount N b := by
  rw [liveCount_eq_sum, liveCount_eq_sum]
  unfold shift
  rw [sum_range_torus N (-c)
    (fun y => ∑ x in Finset.range N, (b y (torus N x (-a))).toNat) hN]
  apply Finset.sum_congr rfl
  intro y _
  exact sum_range_torus N (-a) (fun x => (b y x).toNat) hN

/-- C18: translation equivariance on the torus.  For every dimension `N >= 1`,
every shift `(a, c)` and every two states of which the second holds the board
of the first shifted by `(a, c)`, the board after `Step` of the second is the
shifted board after `Step` of the first, and `nLiving` after the `Step` is the
same for both. -/
theorem Step_shift (N : Nat) (s t : State) (a c : Int) (hN : 1 ≤ N)
    (ht : ∀ y < N, ∀ x < N, t.cellBoard y x = shift N a c s.cellBoard y x) :
    (∀ y < N, ∀ x < N, (Step N t).cellBoard y x = shift N a c (Step N s).cellBoard y x) ∧
      (Step N t).nLiving = (Step N s).nLiving := by
  have h1 : ∀ y < N, ∀ x < N,
      nextCell N t.cellBoard y x = shift N a c (nextCell N s.cellBoard) y x := by
    intro y hy x hx
    rw [nextCell_congr N t.cellBoard (shift N a c s.cellBoard) y x hy hx ht]
    exact nextCell_shift N a c s.cellBoard x y hx hy
  refine ⟨?_, ?_⟩
  · intro y hy x hx
    rw [Step_cellBoard N t y x hy hx, h1 y hy x hx]
    show _ = (Step N s).cellBoard (torus N y (-c)) (torus N x (-a))
    rw [Step_cellBoard N s _ _ (torus_lt N y _ hN) (torus_lt N x _ hN)]
    rfl
  · rw [Step_nLiving, Step_nLiving,
      liveCount_congr N (Step N t).cellBoard (nextCell N t.cellBoard)
        (fun r hr c hc => Step_cellBoard N t r c hr hc),
      liveCount_congr N (Step N s).cellBoard (nextCell N s.cellBoard)
        (fun r hr c hc => Step_cellBoard N s r c hr hc),
      liveCount_congr N (nextCell N t.cellBoard) (shift N a c (nextCell N s.cellBoard)) h1,
      liveCount_shift N a c _ hN]

set_option maxRecDepth 100000 in
theorem Step_shift_witness :
    (∀ y < 5, ∀ x < 5,
        blinkerShifted.cellBoard y x = shift 5 3 (-1) blinkerState.cellBoard y x) ∧
      (∀ y < 5, ∀ x < 5,
        (Step 5 blinkerShifted).cellBoard y x =
          shift 5 3 (-1) (Step 5 blinkerState).cellBoard y x) ∧
      (Step 5 blinkerShifted).nLiving = (Step 5 blinkerState).nLiving :=
  ⟨by decide, Step_shift 5 blinkerState blinkerShifted 3 (-1) (by decide) (by decide)⟩

end GolGL
